import Mathlib

/-!
# Verification of the brinfo core (Meta-Collector, Instrumenter, Runtime Tracer)

Shallow embedding of the brinfo repository's core components:

* `src/src/core/Meta.cpp` — the static Meta-Collector (condition interning,
  function interning, chain recording, rolling signature);
* `src/src/instrumenter/Instrumenter.cpp` — the source instrumenter
  (condition normalization, probe construction);
* `src/src/runtime/Runtime.cpp` — the runtime tracer (per-thread test /
  assertion / invocation state machine and NDJSON event emission);
* `src/include/brinfo/Runtime.h` — the runtime API surface;
* `src/Utils.h` — FNV-1a-64 hashing.

Strings are modelled as lists of byte values (`List Nat`); machine 64-bit
arithmetic is modelled on `Nat` with explicit reduction modulo `2 ^ 64`.
All definitions are executable.
-/

set_option maxRecDepth 8000

namespace BrInfo

/-! ## Bytes and strings -/

/-- Byte-list view of an ASCII string literal (each `Char` below 128 is its
own UTF-8 byte, matching the C++ `std::string` contents). -/
def bytes (s : String) : List Nat :=
  s.toList.map Char.toNat

/-! ## FNV-1a 64-bit hashing (`src/Utils.h`, `fnv1a64`)

The repository writes the offset basis as `1469598103934665603ULL` in all
three of its copies (`src/Utils.h:16`, `src/src/core/Meta.cpp:28`,
`src/src/runtime/Runtime.cpp:114`).  Note that this is NOT the FNV-1a-64
offset basis `0xcbf29ce484222325 = 14695981039346656037`: the final
decimal digit `7` is missing.  The model keeps the code's constant. -/

/-- The offset constant the code actually uses (`FNV_OFFSET` in
`src/Utils.h`): `1469598103934665603`. -/
def fnvOffset : Nat := 1469598103934665603

/-- The real FNV-1a-64 offset basis `0xcbf29ce484222325`, as named by the
spec (§6) and by the claims.  It differs from the code's `fnvOffset`. -/
def specFnvOffset : Nat := 0xcbf29ce484222325

/-- FNV-1a-64 prime `1099511628211 = 0x100000001b3`. -/
def fnvPrime : Nat := 1099511628211

/-- 64-bit modulus. -/
def M64 : Nat := 2 ^ 64

/-- One FNV-1a-64 mixing step: `h ^= v; h *= prime` in 64-bit arithmetic. -/
def fnv1aMix (h v : Nat) : Nat :=
  ((h ^^^ v) * fnvPrime) % M64

/-- FNV-1a-64 over a byte sequence (`fnv1a64` in `src/Utils.h`). -/
def fnv1a64 (data : List Nat) : Nat :=
  data.foldl fnv1aMix fnvOffset

/-- `BrInfo::hash64`. Modelled from the spec: the repository's
`include/brinfo/Utils.h` (which `Meta.cpp` and `Instrumenter.cpp` include
for `BrInfo::hash64`) is not under `src/`; the spec (§6 "Hash functions")
fixes the hash as FNV-1a-64 with offset `0xcbf29ce484222325` and prime
`0x100000001b3` over the UTF-8 bytes, exactly `fnv1a64` of `src/Utils.h`. -/
def hash64 (s : List Nat) : Nat :=
  fnv1a64 s

/-! ## Rolling chain signature (`MetaCollector::rollingHash`, Meta.cpp:26-35) -/

/-- The 64-bit encoding of one chain element:
`((uint64_t)P.first << 1) | (uint64_t)(P.second ? 1 : 0)`. -/
def chainEncode (p : Nat × Bool) : Nat :=
  (p.1 <<< 1) ||| (if p.2 then 1 else 0)

/-- `MetaCollector::rollingHash`: FNV-1a-64 over the encoded elements. -/
def rollingHash (seq : List (Nat × Bool)) : Nat :=
  seq.foldl (fun h p => fnv1aMix h (chainEncode p)) fnvOffset

/-! ## Decimal rendering (`std::to_string` on an `unsigned` line number) -/

/-- Fuel-driven digit expansion: ASCII digits of `n`, most significant
first, empty for `0`.  The fuel bounds the number of digits. -/
def decDigitsAux : Nat → Nat → List Nat
  | 0, _ => []
  | _ + 1, 0 => []
  | fuel + 1, n + 1 => decDigitsAux fuel ((n + 1) / 10) ++ [(n + 1) % 10 + 48]

/-- Decimal ASCII rendering of a natural number, most significant digit
first, as `std::to_string` produces (`"0"` for zero). -/
def decDigits (n : Nat) : List Nat :=
  if n = 0 then [48] else decDigitsAux n n

/-! ## Meta-Collector state (`src/src/core/Meta.cpp`, `include/brinfo/Meta.h`) -/

/-- `BrInfo::ConditionMeta` (Meta.h). -/
structure ConditionMeta where
  id : Nat
  file : List Nat
  line : Nat
  condNorm : List Nat
  kind : List Nat
  hash : Nat
  deriving Repr, DecidableEq

/-- `BrInfo::ReturnExprMeta` (Meta.h). -/
structure ReturnExprMeta where
  chainId : List Nat
  returnHash : Nat
  returnNorm : List Nat
  deriving Repr, DecidableEq

/-- `BrInfo::FunctionMetaEntry` (Meta.h).  `ConditionIds` is a C++
`unordered_set`; it is modelled as a duplicate-free list in insertion
order. -/
structure FunctionMetaEntry where
  funcId : Nat
  signature : List Nat
  name : List Nat
  file : List Nat
  funcHash : Nat
  conditionIds : List Nat
  returns : List ReturnExprMeta
  deriving Repr, DecidableEq

/-- `BrInfo::ChainMetaEntry` (Meta.h). -/
structure ChainMetaEntry where
  chainId : List Nat
  funcHash : Nat
  sequence : List (Nat × Bool)
  signature : Nat
  minCover : Bool
  returnHash : Nat
  deriving Repr, DecidableEq

/-- The `MetaCollector`'s static tables (Meta.cpp:14-18).  The two
`unordered_map` indices are modelled as association lists with the newest
binding in front. -/
structure CState where
  conditions : List ConditionMeta
  condKey2Id : List (List Nat × Nat)
  functions : List FunctionMetaEntry
  funcHash2Id : List (Nat × Nat)
  chains : List ChainMetaEntry
  deriving Repr, DecidableEq

/-- The empty collector state (all static tables empty). -/
def emptyCState : CState :=
  ⟨[], [], [], [], []⟩

/-- First-match association-list lookup (model of `unordered_map::find`). -/
def alookup {κ ν : Type} [DecidableEq κ] : List (κ × ν) → κ → Option ν
  | [], _ => none
  | (k, v) :: rest, key => if k = key then some v else alookup rest key

/-- `MetaCollector::conditionHash` (Meta.cpp:43-47):
`hash64(File + ":" + to_string(Line) + ":" + Cond)`. -/
def conditionHash (file : List Nat) (line : Nat) (cond : List Nat) : Nat :=
  hash64 (file ++ bytes ":" ++ decDigits line ++ bytes ":" ++ cond)

/-- The interning key of `MetaCollector::getOrCreateConditionId`
(Meta.cpp:53): `File + "#" + to_string(Line) + "#" + CondNorm`. -/
def condKey (file : List Nat) (line : Nat) (cond : List Nat) : List Nat :=
  file ++ bytes "#" ++ decDigits line ++ bytes "#" ++ cond

/-- `MetaCollector::getOrCreateConditionId` (Meta.cpp:49-68): look the key
up; on a miss append a new `ConditionMeta` (with `Hash` from
`conditionHash`) and bind the key to the new dense id. -/
def getOrCreateConditionId (s : CState) (file : List Nat) (line : Nat)
    (condNorm : List Nat) (kind : List Nat) : Nat × CState :=
  match alookup s.condKey2Id (condKey file line condNorm) with
  | some i => (i, s)
  | none =>
    (s.conditions.length,
     { s with
        conditions := s.conditions ++
          [{ id := s.conditions.length, file := file, line := line,
             condNorm := condNorm, kind := kind,
             hash := conditionHash file line condNorm }],
        condKey2Id :=
          (condKey file line condNorm, s.conditions.length) :: s.condKey2Id })

/-- `MetaCollector::getOrCreateFunctionId` (Meta.cpp:70-87). -/
def getOrCreateFunctionId (s : CState) (funcHash : Nat)
    (signature name file : List Nat) : Nat × CState :=
  match alookup s.funcHash2Id funcHash with
  | some i => (i, s)
  | none =>
    (s.functions.length,
     { s with
        functions := s.functions ++
          [{ funcId := s.functions.length, signature := signature,
             name := name, file := file, funcHash := funcHash,
             conditionIds := [], returns := [] }],
        funcHash2Id := (funcHash, s.functions.length) :: s.funcHash2Id })

/-- `MetaCollector::returnHash` (Meta.cpp:37-41): `0` for the empty string,
else `hash64`. -/
def returnHash (str : List Nat) : Nat :=
  if str = [] then 0 else hash64 str

/-- `std::setw(3) << std::setfill('0') << I` (Meta.cpp:119-120): decimal
rendering left-padded with `'0'` to at least three characters. -/
def pad3 (n : Nat) : List Nat :=
  List.replicate (3 - (decDigits n).length) 48 ++ decDigits n

/-! ## `MetaCollector::recordFunction` inputs

`recordFunction` consumes the front-end's `CondChainInfo` values.  Only the
fields Meta.cpp reads are modelled: `IsContra`, and per step the optional
`Condition` object with its `getCond()` begin-location (file and spelling
line, `none` when the statement pointer is null), `getCondStr()`,
`isNot()` and `getKind()`, plus the step's `Flag`. -/

/-- `BaseCond` kind tag (`BaseCond::IF/CASE/DEFAULT/LOOP/TRY`). -/
inductive CondKind
  | IF | CASE | DEFAULT | LOOP | TRY
  deriving Repr, DecidableEq

/-- The `switch` in Meta.cpp:143-159 mapping the kind tag to a string. -/
def kindString : CondKind → List Nat
  | .IF => bytes "IF"
  | .CASE => bytes "CASE"
  | .DEFAULT => bytes "DEFAULT"
  | .LOOP => bytes "LOOP"
  | .TRY => bytes "TRY"

/-- What Meta.cpp reads from a non-null `CS.Condition`. -/
structure CondSrc where
  /-- `getCond()`: when the statement is non-null, the spelling
  `(file, line)` of its begin location (Meta.cpp:131-136). -/
  cond : Option (List Nat × Nat)
  /-- `getCondStr()` (Meta.cpp:137). -/
  condStr : List Nat
  /-- `isNot()` (Meta.cpp:139). -/
  isNot : Bool
  /-- `getKind()` (Meta.cpp:143). -/
  kind : CondKind
  deriving Repr, DecidableEq

/-- One step of a condition chain (`CS` in Meta.cpp:126-164). -/
structure CondStepSrc where
  condition : Option CondSrc
  flag : Bool
  deriving Repr, DecidableEq

/-- One `CondChainInfo` as consumed by Meta.cpp (`IsContra`, `Chain`). -/
structure CondChainInfo where
  isContra : Bool
  chain : List CondStepSrc
  deriving Repr, DecidableEq

/-- Insert into the function's `ConditionIds` set
(`Functions[FuncId].ConditionIds.insert(Cid)`, Meta.cpp:163). -/
def insertCid (l : List Nat) (c : Nat) : List Nat :=
  if c ∈ l then l else l ++ [c]

/-- Add `cid` to `Functions[fid].ConditionIds` in the state. -/
def addCondId (s : CState) (fid cid : Nat) : CState :=
  match s.functions[fid]? with
  | none => s
  | some f =>
    { s with functions :=
        s.functions.set fid { f with conditionIds := insertCid f.conditionIds cid } }

/-- Append `r` to `Functions[fid].Returns` (Meta.cpp:169-170). -/
def pushReturn (s : CState) (fid : Nat) (r : ReturnExprMeta) : CState :=
  match s.functions[fid]? with
  | none => s
  | some f =>
    { s with functions := s.functions.set fid { f with returns := f.returns ++ [r] } }

/-- The inner loop of `recordFunction` over one chain's steps
(Meta.cpp:126-164).  Threads the mutable `FilePath` local (which the loop
overwrites whenever a step has a non-null condition statement) and the
collector state; returns the final `FilePath`, the state, and the
`Entry.Sequence` built from the live steps. -/
def recSteps (fid : Nat) :
    List CondStepSrc → List Nat → CState → List Nat × CState × List (Nat × Bool)
  | [], fp, s => (fp, s, [])
  | st :: rest, fp, s =>
    match st.condition with
    | none => recSteps fid rest fp s
    | some c =>
      let fp' := match c.cond with | some fl => fl.1 | none => fp
      let line := match c.cond with | some fl => fl.2 | none => 0
      let val := if c.isNot then !st.flag else st.flag
      let r := getOrCreateConditionId s fp' line c.condStr (kindString c.kind)
      let s2 := addCondId r.2 fid r.1
      let rr := recSteps fid rest fp' s2
      (rr.1, rr.2.1, (r.1, val) :: rr.2.2)

/-- `Chains.push_back(std::move(Entry))` (Meta.cpp:173). -/
def appendChain (s : CState) (e : ChainMetaEntry) : CState :=
  { s with chains := s.chains ++ [e] }

/-- The `ChainMetaEntry` one surviving chain produces (Meta.cpp:118-124,
161, 165-167): zero-padded loop index, the function hash, the built
sequence with its rolling signature, the min-cover membership flag and the
return hash. -/
def mkChainEntry (i fh : Nat) (mc : List Nat) (seq : List (Nat × Bool))
    (retHash : Nat) : ChainMetaEntry :=
  { chainId := pad3 i, funcHash := fh, sequence := seq,
    signature := rollingHash seq, minCover := i ∈ mc, returnHash := retHash }

/-- The outer loop of `recordFunction` over the chain list
(Meta.cpp:114-174), carrying the loop index `I` and the threaded
`FilePath`.  Contradictory chains are skipped (but still advance `I`);
each surviving chain appends one `ChainMetaEntry` and, when
`I < ReturnStrs.size()` with a non-empty string, one return record. -/
def recChains (fid : Nat) (funcHash : Nat) (minCover : List Nat)
    (returnStrs : List (List Nat)) :
    List CondChainInfo → Nat → List Nat → CState → List Nat × CState
  | [], _, fp, s => (fp, s)
  | ci :: rest, i, fp, s =>
    if ci.isContra then
      recChains fid funcHash minCover returnStrs rest (i + 1) fp s
    else
      let r := recSteps fid ci.chain fp s
      let retHash : Nat :=
        match returnStrs[i]? with
        | some rstr => returnHash rstr
        | none => 0
      let s2 :=
        match returnStrs[i]? with
        | some rstr =>
          if rstr = [] then r.2.1
          else pushReturn r.2.1 fid ⟨pad3 i, returnHash rstr, rstr⟩
        | none => r.2.1
      recChains fid funcHash minCover returnStrs rest (i + 1) r.1
        (appendChain s2 (mkChainEntry i funcHash minCover r.2.2 retHash))

/-- `MetaCollector::recordFunction` (Meta.cpp:100-175).  `fdFile` is the
filename of `FD->getLocation()` and `fdName` is `FD->getNameAsString()`;
`minCover` models the `MinCover` index set. -/
def recordFunction (fdFile fdName signature : List Nat)
    (condChains : List CondChainInfo) (minCover : List Nat)
    (returnStrs : List (List Nat)) (s : CState) : CState :=
  let funcHash := hash64 signature
  let r := getOrCreateFunctionId s funcHash signature fdName fdFile
  (recChains r.1 funcHash minCover returnStrs condChains 0 fdFile r.2).2

/-! ## Runtime Tracer (`src/src/runtime/Runtime.cpp`)

Per-thread state and the NDJSON events of one thread.  Time-valued fields
(`ts`, `duration_ms`) and the raw file I/O are not modelled; each emitted
line is one `Ev` value.  `hash64_local` (Runtime.cpp:112-122) is the same
FNV-1a fold as `fnv1a64`. -/

/-- One emitted NDJSON event, with the fields the claims reason about.
In a `cond` event the `test_id`/`invocation_id` members are optional,
mirroring the conditional emission in `WriteJson` (Runtime.cpp:332-337). -/
inductive Ev
  | testStart (testId : Nat) (suite name : List Nat) (hash : Nat)
  | testEnd (testId : Nat) (status : List Nat)
  | assertion (testId assertId : Nat)
  | invocationStart (testId invId index segmentId : Nat) (inOracle : Bool)
  | invocationEnd (testId invId segmentId : Nat) (status : List Nat)
  | cond (testId invId : Option Nat) (funcHash : Nat) (condHash : Nat)
      (file : List Nat) (line : Nat) (condNorm : List Nat)
      (condKind : List Nat) (val : Bool) (normFlip : Bool)
  deriving Repr, DecidableEq

/-- `TestCtx` (Runtime.cpp:70-81), without the wall-clock field. -/
structure TestCtx where
  id : Nat
  suite : List Nat
  name : List Nat
  nextAssertId : Nat
  nextInvocationIndex : Nat
  deriving Repr, DecidableEq

/-- `InvocationFrame` (Runtime.cpp:83-95), without the wall-clock field. -/
structure InvocationFrame where
  id : Nat
  index : Nat
  testId : Nat
  depth : Nat
  targetFuncHash : Nat
  segmentId : Nat
  inOracle : Bool
  deriving Repr, DecidableEq

/-- One thread's runtime state: the process-wide counters `NextTestId` and
`NextInvocationId` (single-threaded here) plus the thread-locals `TLTest`,
`TLInvStack` (top of stack at the head), `TLInAssertion`, `TLSegmentId`
(Runtime.cpp:97-110). -/
structure RtState where
  nextTestId : Nat
  nextInvocationId : Nat
  test : Option TestCtx
  invStack : List InvocationFrame
  inAssertion : Bool
  segmentId : Nat
  deriving Repr, DecidableEq

/-- The state at process start: counters at 1, no test, empty stack. -/
def initRtState : RtState :=
  ⟨1, 1, none, [], false, 0⟩

/-- `BeginTest` (Runtime.cpp:223-240): unconditionally installs a fresh
`TestCtx` (fresh monotonic id, counters zero), resets the segment counter
and the assertion flag, and emits `test_start`.  The invocation stack is
not touched. -/
def beginTestFn (suite name : List Nat) (s : RtState) : RtState × List Ev :=
  let ctx : TestCtx :=
    { id := s.nextTestId, suite := suite, name := name,
      nextAssertId := 0, nextInvocationIndex := 0 }
  ({ s with nextTestId := s.nextTestId + 1, test := some ctx,
            segmentId := 0, inAssertion := false },
   [Ev.testStart ctx.id suite name (fnv1a64 (suite ++ bytes "." ++ name))])

/-- `EndTest` (Runtime.cpp:242-253): with an active test, emits `test_end`
and clears all per-test thread state; otherwise does nothing. -/
def endTestFn (status : List Nat) (s : RtState) : RtState × List Ev :=
  match s.test with
  | none => (s, [])
  | some t =>
    ({ s with test := none, invStack := [], inAssertion := false, segmentId := 0 },
     [Ev.testEnd t.id status])

/-- `AssertionBegin` (Runtime.cpp:255-265): requires an active test; sets
the in-assertion flag, takes the next assert id and emits `assertion`. -/
def assertionBeginFn (s : RtState) : RtState × List Ev :=
  match s.test with
  | none => (s, [])
  | some t =>
    ({ s with test := some { t with nextAssertId := t.nextAssertId + 1 },
              inAssertion := true },
     [Ev.assertion t.id t.nextAssertId])

/-- `AssertionEnd` (Runtime.cpp:267-275): requires an active test; clears
the in-assertion flag and increments the thread's segment counter.  No
event. -/
def assertionEndFn (s : RtState) : RtState × List Ev :=
  match s.test with
  | none => (s, [])
  | some _ =>
    ({ s with inAssertion := false, segmentId := s.segmentId + 1 }, [])

/-- `BeginInvocation` (Runtime.cpp:277-303): ignored without an active
test; with a non-empty stack it only increments the top frame's depth;
otherwise it pushes a fresh frame capturing `TLSegmentId` and
`TLInAssertion` and emits `invocation_start`. -/
def beginInvocationFn (targetFuncHash : Nat) (s : RtState) : RtState × List Ev :=
  match s.test with
  | none => (s, [])
  | some t =>
    match s.invStack with
    | f :: rest =>
      ({ s with invStack := { f with depth := f.depth + 1 } :: rest }, [])
    | [] =>
      let fr : InvocationFrame :=
        { id := s.nextInvocationId, index := t.nextInvocationIndex,
          testId := t.id, depth := 1, targetFuncHash := targetFuncHash,
          segmentId := s.segmentId, inOracle := s.inAssertion }
      ({ s with nextInvocationId := s.nextInvocationId + 1,
                test := some { t with nextInvocationIndex := t.nextInvocationIndex + 1 },
                invStack := [fr] },
       [Ev.invocationStart fr.testId fr.id fr.index fr.segmentId fr.inOracle])

/-- `EndInvocation` (Runtime.cpp:305-323): empty stack is a silent no-op;
depth above one only decrements; at depth one it emits `invocation_end`
and pops.  (No active-test check is performed.) -/
def endInvocationFn (status : List Nat) (s : RtState) : RtState × List Ev :=
  match s.invStack with
  | [] => (s, [])
  | f :: rest =>
    if f.depth > 1 then
      ({ s with invStack := { f with depth := f.depth - 1 } :: rest }, [])
    else
      ({ s with invStack := rest },
       [Ev.invocationEnd f.testId f.id f.segmentId status])

/-- `LogCond` (Runtime.cpp:326-358): always writes one `cond` event whose
optional `test_id`/`invocation_id` come from the current thread state, and
returns the `value` argument.  The state is not modified. -/
def logCondFn (funcHash : Nat) (file : List Nat) (line : Nat) (value : Bool)
    (condNorm : List Nat) (condHash : Nat) (normFlip : Bool)
    (condKind : List Nat) (s : RtState) : Bool × RtState × List Ev :=
  (value, s,
   [Ev.cond (s.test.map (·.id)) (s.invStack.head?.map (·.id)) funcHash
      condHash file line condNorm condKind value normFlip])

/-- The public runtime entry points as one operation alphabet. -/
inductive ROp
  | beginTest (suite name : List Nat)
  | endTest (status : List Nat)
  | assertionBegin
  | assertionEnd
  | beginInvocation (targetFuncHash : Nat)
  | endInvocation (status : List Nat)
  | logCond (funcHash : Nat) (file : List Nat) (line : Nat) (value : Bool)
      (condNorm : List Nat) (condHash : Nat) (normFlip : Bool) (condKind : List Nat)
  deriving Repr, DecidableEq

/-- Dispatch one runtime call. -/
def step (op : ROp) (s : RtState) : RtState × List Ev :=
  match op with
  | .beginTest suite name => beginTestFn suite name s
  | .endTest status => endTestFn status s
  | .assertionBegin => assertionBeginFn s
  | .assertionEnd => assertionEndFn s
  | .beginInvocation h => beginInvocationFn h s
  | .endInvocation status => endInvocationFn status s
  | .logCond fh f l v n ch nf ck => (logCondFn fh f l v n ch nf ck s).2

/-- Run a call sequence on one thread, concatenating the emitted events in
program order. -/
def run : List ROp → RtState → RtState × List Ev
  | [], s => (s, [])
  | op :: ops, s =>
    ((run ops (step op s).1).1, (step op s).2 ++ (run ops (step op s).1).2)

/-! ## Source Instrumenter (`src/src/instrumenter/Instrumenter.cpp`)

A small C++ expression language covering the shapes the instrumenter's
normalization distinguishes: parentheses and implicit casts (stripped by
`IgnoreParenImpCasts`), binary `!=`, unary `!`, the logical operators, and
opaque leaves.  `printPretty` renders the canonical source text. -/

/-- Expression shapes the instrumenter inspects. -/
inductive CExpr
  /-- An opaque leaf (a `DeclRefExpr`, call, etc.) printing as its text. -/
  | atom (text : List Nat)
  /-- `nullptr`, printing as `nullptr` and evaluating to the null value. -/
  | nullptrLit
  /-- An integer literal. -/
  | intLit (n : Nat)
  /-- Binary `!=`. -/
  | ne (lhs rhs : CExpr)
  /-- Binary `>`. -/
  | gt (lhs rhs : CExpr)
  /-- Binary `&&`. -/
  | land (lhs rhs : CExpr)
  /-- Binary `||`. -/
  | lor (lhs rhs : CExpr)
  /-- Unary logical not. -/
  | lnot (e : CExpr)
  /-- A parenthesized expression. -/
  | paren (e : CExpr)
  /-- An implicit cast node. -/
  | impCast (e : CExpr)
  deriving Repr, DecidableEq

/-- `Expr::IgnoreParenImpCasts`. -/
def stripParenImpCasts : CExpr → CExpr
  | .paren e => stripParenImpCasts e
  | .impCast e => stripParenImpCasts e
  | e => e

/-- `printPretty`: canonical source rendering. -/
def printPretty : CExpr → List Nat
  | .atom t => t
  | .nullptrLit => bytes "nullptr"
  | .intLit n => decDigits n
  | .ne l r => printPretty l ++ bytes " != " ++ printPretty r
  | .gt l r => printPretty l ++ bytes " > " ++ printPretty r
  | .land l r => printPretty l ++ bytes " && " ++ printPretty r
  | .lor l r => printPretty l ++ bytes " || " ++ printPretty r
  | .lnot e => bytes "!" ++ printPretty e
  | .paren e => bytes "(" ++ printPretty e ++ bytes ")"
  | .impCast e => printPretty e

/-- `isspace` bytes plus `';'` — what `rtrimSemiSpace` strips. -/
def isSpaceOrSemi (c : Nat) : Bool :=
  c = 32 || c = 9 || c = 10 || c = 13 || c = 11 || c = 12 || c = 59

/-- `IfInstrumentVisitor::rtrimSemiSpace` (Instrumenter.cpp:55-60). -/
def rtrimSemiSpace (s : List Nat) : List Nat :=
  (s.reverse.dropWhile isSpaceOrSemi).reverse

/-- `IfInstrumentVisitor::containsLogicalOp` (Instrumenter.cpp:37-53):
after stripping, a logical binary operator anywhere below a chain of
binary operators (and conditional operators, not modelled as they never
appear in a condition here). -/
def containsLogicalOp : CExpr → Bool
  | .paren e => containsLogicalOp e
  | .impCast e => containsLogicalOp e
  | .land _ _ => true
  | .lor _ _ => true
  | .ne l r => containsLogicalOp l || containsLogicalOp r
  | .gt l r => containsLogicalOp l || containsLogicalOp r
  | _ => false

/-- `IfInstrumentVisitor::condNormFromExpr` (Instrumenter.cpp:91-115):
after `IgnoreParenImpCasts`, a binary `!=` prints as
`<lhs> == <rhs>` (operands also stripped), a unary `!` prints as its
stripped operand, anything else prints verbatim; all results are
right-trimmed of whitespace and `';'`. -/
def condNormFromExpr (e : CExpr) : List Nat :=
  match stripParenImpCasts e with
  | .ne l r =>
    rtrimSemiSpace (printPretty (stripParenImpCasts l) ++ bytes " == " ++
      printPretty (stripParenImpCasts r))
  | .lnot sub => rtrimSemiSpace (printPretty (stripParenImpCasts sub))
  | pe => rtrimSemiSpace (printPretty pe)

/-- `IfInstrumentVisitor::condNormFlipped` (Instrumenter.cpp:118-129):
true exactly for a stripped binary `!=` or unary `!`. -/
def condNormFlipped (e : CExpr) : Bool :=
  match stripParenImpCasts e with
  | .ne _ _ => true
  | .lnot _ => true
  | _ => false

/-- `IfInstrumentVisitor::makeCondNormAndHash` (Instrumenter.cpp:131-136):
the normalized text and `hash64(File + ":" + to_string(Line) + ":" + Norm)`. -/
def makeCondNormAndHash (file : List Nat) (line : Nat) (e : CExpr) :
    List Nat × Nat :=
  let norm := condNormFromExpr e
  (norm, hash64 (file ++ bytes ":" ++ decDigits line ++ bytes ":" ++ norm))

/-- `IfInstrumentVisitor::escapeForCxxString` (Instrumenter.cpp:62-88) on
one byte. -/
def escapeByte (c : Nat) : List Nat :=
  if c = 92 then [92, 92]
  else if c = 34 then [92, 34]
  else if c = 10 then [92, 110]
  else if c = 9 then [92, 116]
  else if c < 32 then []
  else [c]

/-- `IfInstrumentVisitor::escapeForCxxString` over a string. -/
def escapeForCxxString (s : List Nat) : List Nat :=
  (s.map escapeByte).flatten

/-- One lowercase hex digit. -/
def hexDigit (n : Nat) : Nat :=
  if n < 10 then 48 + n else 87 + n

/-- `BrInfo::toHex64` (`src/Utils.h:8-12`): `"0x"` followed by 16 lowercase
hex digits, zero padded. -/
def toHex64 (v : Nat) : List Nat :=
  bytes "0x" ++ (List.range 16).map (fun i => hexDigit ((v >>> (4 * (15 - i))) % 16))

/-- The text `VisitIfStmt` (and identically `VisitWhileStmt`,
`VisitForStmt`, `VisitDoStmt`, `VisitConditionalOperator`) injects before
the condition (Instrumenter.cpp:186-189). -/
def probePrefix (funcHash : Nat) (file : List Nat) (line : Nat) : List Nat :=
  bytes "BrInfo::Runtime::LogCond(" ++ toHex64 funcHash ++ bytes ", \"" ++
    file ++ bytes "\", " ++ decDigits line ++ bytes ", (bool)("

/-- The text injected after the condition (Instrumenter.cpp:190-193). -/
def probeSuffix (norm : List Nat) (h : Nat) (flip : Bool) : List Nat :=
  bytes ") , \"" ++ escapeForCxxString norm ++ bytes "\", " ++ toHex64 h ++
    bytes ", " ++ (if flip then bytes "true" else bytes "false") ++ bytes ")"

/-- The whole rewritten condition: injected prefix, the condition's
original source text, injected suffix.  `srcText` is the untouched source
range between the two insertion points. -/
def injectedCondProbe (funcHash : Nat) (file : List Nat) (line : Nat)
    (cond : CExpr) (srcText : List Nat) : List Nat :=
  let nh := makeCondNormAndHash file line cond
  probePrefix funcHash file line ++ srcText ++
    probeSuffix nh.1 nh.2 (condNormFlipped cond)

/-- The declared parameters of `BrInfo::Runtime::LogCond`
(`src/include/brinfo/Runtime.h:54-56`); none has a default argument. -/
def logCondParams : List (List Nat) :=
  [bytes "funcHash", bytes "file", bytes "line", bytes "value",
   bytes "condNorm", bytes "condHash", bytes "normFlip", bytes "condKind"]

/-- Count commas at parenthesis depth one outside string literals —
the top-level argument separators of a call rendered as text.  `depth`
is the running parenthesis depth, `inStr`/`esc` track C++ string-literal
state. -/
def countTopCommas : List Nat → Nat → Bool → Bool → Nat
  | [], _, _, _ => 0
  | c :: rest, depth, inStr, esc =>
    if inStr then
      if esc then countTopCommas rest depth true false
      else if c = 92 then countTopCommas rest depth true true
      else if c = 34 then countTopCommas rest depth false false
      else countTopCommas rest depth true false
    else if c = 34 then countTopCommas rest depth true false
    else if c = 40 then countTopCommas rest (depth + 1) false false
    else if c = 41 then countTopCommas rest (depth - 1) false false
    else if c = 44 && depth = 1 then 1 + countTopCommas rest 1 false false
    else countTopCommas rest depth false false

/-- Number of arguments of a call rendered as text. -/
def callArgCount (text : List Nat) : Nat :=
  countTopCommas text 0 false false + 1

/-! ## Runtime values of instrumented conditions

`evalNat` gives each expression a value (pointers as addresses with
`nullptr = 0`, comparisons yielding `0`/`1`), and the probe's logged
boolean is the C++ `(bool)(E)` of the original expression `E`, i.e. its
value compared against zero. -/

/-- Evaluate an expression under an environment assigning values to atoms. -/
def evalNat (env : List Nat → Nat) : CExpr → Nat
  | .atom t => env t
  | .nullptrLit => 0
  | .intLit n => n
  | .ne l r => if evalNat env l = evalNat env r then 0 else 1
  | .gt l r => if evalNat env r < evalNat env l then 1 else 0
  | .land l r => if evalNat env l ≠ 0 ∧ evalNat env r ≠ 0 then 1 else 0
  | .lor l r => if evalNat env l ≠ 0 ∨ evalNat env r ≠ 0 then 1 else 0
  | .lnot e => if evalNat env e = 0 then 1 else 0
  | .paren e => evalNat env e
  | .impCast e => evalNat env e

/-- The boolean the injected probe passes to `LogCond`: `(bool)(E)` where
`E` is the original condition expression. -/
def probeLoggedValue (env : List Nat → Nat) (cond : CExpr) : Bool :=
  decide (evalNat env cond ≠ 0)

/-! ## Theorems -/

/-- **C4.** The append law itself holds:
`rollingHash (seq ++ [e]) = fnv1aMix (rollingHash seq) ((cond_id <<< 1) ||| (if value then 1 else 0))`
with `fnv1aMix h v = ((h XOR v) * 0x100000001b3) % 2^64` — but the base case
of the claim fails on the code: `rollingHash []` is the code's constant
`1469598103934665603`, which is NOT the FNV-1a-64 offset basis
`0xcbf29ce484222325 = 14695981039346656037` (the code's literal drops the
final digit `7`). -/
theorem rollingHash_append_law :
    rollingHash [] = 1469598103934665603 ∧
    rollingHash [] ≠ specFnvOffset ∧
    (∀ (seq : List (Nat × Bool)) (e : Nat × Bool),
      rollingHash (seq ++ [e]) =
        fnv1aMix (rollingHash seq) ((e.1 <<< 1) ||| (if e.2 then 1 else 0))) := by
  refine ⟨rfl, by decide, ?_⟩
  intro seq e
  simp [rollingHash, chainEncode, List.foldl_append]

/-- **C10.** `LogCond` emits exactly one `cond` event and returns its
`value` argument unconditionally, for every thread state (in particular
with no active test or empty invocation stack); the event carries the
`test_id` field exactly when a test context is active and the
`invocation_id` field exactly when the invocation stack is non-empty, and
the state is untouched. -/
theorem logCond_unconditional (funcHash : Nat) (file : List Nat) (line : Nat)
    (value : Bool) (condNorm : List Nat) (condHash : Nat) (normFlip : Bool)
    (condKind : List Nat) (s : RtState) :
    (logCondFn funcHash file line value condNorm condHash normFlip condKind s).1
        = value ∧
    (logCondFn funcHash file line value condNorm condHash normFlip condKind s).2.1
        = s ∧
    (logCondFn funcHash file line value condNorm condHash normFlip condKind s).2.2
        = [Ev.cond (s.test.map (·.id)) (s.invStack.head?.map (·.id)) funcHash
            condHash file line condNorm condKind value normFlip] ∧
    ((s.test.map (·.id)).isSome ↔ s.test.isSome) ∧
    ((s.invStack.head?.map (·.id)).isSome ↔ s.invStack ≠ []) := by
  refine ⟨rfl, rfl, rfl, ?_, ?_⟩
  · cases s.test <;> simp
  · cases s.invStack <;> simp

/-- **C7, counterexample.** After `BeginTest; AssertionBegin; AssertionEnd`
the thread has an active test with id 1 and segment counter 1.  A second
`BeginTest` is not a silent no-op: it emits a `test_start` event, replaces
the test context (the id becomes 2) and resets the segment counter to 0,
refuting "emits no event and leaves the current test context … and the
thread's segment counter unchanged". -/
theorem beginTest_nested_counterexample :
    ((run [.beginTest (bytes "S") (bytes "A"), .assertionBegin, .assertionEnd]
        initRtState).1.segmentId = 1 ∧
     (run [.beginTest (bytes "S") (bytes "A"), .assertionBegin, .assertionEnd]
        initRtState).1.test.map (·.id) = some 1) ∧
    ((beginTestFn (bytes "S") (bytes "B")
        (run [.beginTest (bytes "S") (bytes "A"), .assertionBegin, .assertionEnd]
          initRtState).1).2 ≠ [] ∧
     (beginTestFn (bytes "S") (bytes "B")
        (run [.beginTest (bytes "S") (bytes "A"), .assertionBegin, .assertionEnd]
          initRtState).1).1.test.map (·.id) = some 2 ∧
     (beginTestFn (bytes "S") (bytes "B")
        (run [.beginTest (bytes "S") (bytes "A"), .assertionBegin, .assertionEnd]
          initRtState).1).1.segmentId = 0) := by
  decide

/-- **C7, amended.** A second `BeginTest` on a thread with an active test
is not ignored: it emits exactly one `test_start` event with the next
monotonic test id, installs a fresh test context with zeroed per-test
counters, resets the thread's segment counter to 0 and clears the
assertion flag; only the invocation stack is left as it was. -/
theorem beginTest_replaces_context (suite name : List Nat) (s : RtState)
    (t : TestCtx) (_active : s.test = some t) :
    (beginTestFn suite name s).2 =
      [Ev.testStart s.nextTestId suite name
        (fnv1a64 (suite ++ bytes "." ++ name))] ∧
    (beginTestFn suite name s).1.test =
      some ⟨s.nextTestId, suite, name, 0, 0⟩ ∧
    (beginTestFn suite name s).1.nextTestId = s.nextTestId + 1 ∧
    (beginTestFn suite name s).1.segmentId = 0 ∧
    (beginTestFn suite name s).1.inAssertion = false ∧
    (beginTestFn suite name s).1.invStack = s.invStack := by
  refine ⟨rfl, rfl, rfl, rfl, rfl, rfl⟩

/-- Witness for `beginTest_replaces_context` at a concrete state with an
active test. -/
theorem beginTest_replaces_context_witness :
    (run [ROp.beginTest (bytes "S") (bytes "A")] initRtState).1.test =
      some ⟨1, bytes "S", bytes "A", 0, 0⟩ ∧
    (beginTestFn (bytes "S") (bytes "B")
      (run [ROp.beginTest (bytes "S") (bytes "A")] initRtState).1).1.segmentId = 0 := by
  have h : (run [ROp.beginTest (bytes "S") (bytes "A")] initRtState).1.test =
      some ⟨1, bytes "S", bytes "A", 0, 0⟩ := by decide
  exact ⟨h, (beginTest_replaces_context (bytes "S") (bytes "B") _ _ h).2.2.2.1⟩

/-- **C9.** For the condition `x > 0` (no `&&`/`||`) in file `t.cpp` line
1, inside a function of hash 0, the injected probe text is exactly
`BrInfo::Runtime::LogCond(0x0000000000000000, "t.cpp", 1, (bool)(x > 0) , "x > 0", 0x..., false)`:
a call with 7 arguments and no trailing condition-kind argument, while
`LogCond` (Runtime.h:54-56) declares 8 parameters with no default — so the
injected form does not match the declared signature. -/
theorem injected_probe_missing_kind_argument :
    containsLogicalOp (CExpr.gt (.atom (bytes "x")) (.intLit 0)) = false ∧
    injectedCondProbe 0 (bytes "t.cpp") 1
        (CExpr.gt (.atom (bytes "x")) (.intLit 0)) (bytes "x > 0") =
      bytes "BrInfo::Runtime::LogCond(0x0000000000000000, \"t.cpp\", 1, (bool)(x > 0) , \"x > 0\", 0xca6d10525f5eaa2b, false)" ∧
    callArgCount (injectedCondProbe 0 (bytes "t.cpp") 1
        (CExpr.gt (.atom (bytes "x")) (.intLit 0)) (bytes "x > 0")) = 7 ∧
    logCondParams.length = 8 ∧
    callArgCount (injectedCondProbe 0 (bytes "t.cpp") 1
        (CExpr.gt (.atom (bytes "x")) (.intLit 0)) (bytes "x > 0")) ≠
      logCondParams.length := by
  decide

/-- **C8, counterexample.** For the source condition `p != nullptr` the
probe carries `cond_norm = "p == nullptr"` and `norm_flip = true`, as the
claim says — but with `p` non-null (address 42) the probe passes
`(bool)(p != nullptr) = true` to `LogCond`, so the emitted `cond` event
has `val = 1`, not the claimed `val = 0`: the runtime reports the source
expression's value, not the normalized expression's value. -/
theorem probe_ne_nullptr_val_counterexample :
    condNormFromExpr (CExpr.ne (.atom (bytes "p")) .nullptrLit) =
      bytes "p == nullptr" ∧
    condNormFlipped (CExpr.ne (.atom (bytes "p")) .nullptrLit) = true ∧
    probeLoggedValue (fun _ => 42) (CExpr.ne (.atom (bytes "p")) .nullptrLit)
      = true ∧
    (logCondFn 0 (bytes "t.cpp") 1
        (probeLoggedValue (fun _ => 42) (CExpr.ne (.atom (bytes "p")) .nullptrLit))
        (condNormFromExpr (CExpr.ne (.atom (bytes "p")) .nullptrLit)) 0
        (condNormFlipped (CExpr.ne (.atom (bytes "p")) .nullptrLit))
        (bytes "IF") initRtState).2.2 =
      [Ev.cond none none 0 0 (bytes "t.cpp") 1 (bytes "p == nullptr")
        (bytes "IF") true true] := by
  decide

/-- **C8, amended.** For a source condition `if (p != nullptr)` the
injected probe carries `cond_norm = "p == nullptr"` with
`norm_flip = true`, and whenever `p` is non-null at runtime the probe
logs `val = 1`: the runtime reports the value of the expression as
written in the source (the probe wraps the original expression as
`(bool)(E)`), not the normalized expression's value. -/
theorem probe_ne_nullptr_val_source_form (env : List Nat → Nat)
    (hp : env (bytes "p") ≠ 0) :
    condNormFromExpr (CExpr.ne (.atom (bytes "p")) .nullptrLit) =
      bytes "p == nullptr" ∧
    condNormFlipped (CExpr.ne (.atom (bytes "p")) .nullptrLit) = true ∧
    probeLoggedValue env (CExpr.ne (.atom (bytes "p")) .nullptrLit) = true := by
  refine ⟨by decide, rfl, ?_⟩
  simp [probeLoggedValue, evalNat, hp]

/-- Witness for `probe_ne_nullptr_val_source_form` with `p` at address 42. -/
theorem probe_ne_nullptr_val_source_form_witness :
    (fun _ : List Nat => 42) (bytes "p") ≠ 0 ∧
    probeLoggedValue (fun _ => 42)
      (CExpr.ne (.atom (bytes "p")) .nullptrLit) = true :=
  ⟨by decide, (probe_ne_nullptr_val_source_form (fun _ => 42) (by decide)).2.2⟩

/-! ### Field-preservation lemmas for the collector operations -/

@[simp]
theorem addCondId_conditions (s : CState) (fid cid : Nat) :
    (addCondId s fid cid).conditions = s.conditions := by
  unfold addCondId; cases s.functions[fid]? <;> rfl

@[simp]
theorem addCondId_condKey2Id (s : CState) (fid cid : Nat) :
    (addCondId s fid cid).condKey2Id = s.condKey2Id := by
  unfold addCondId; cases s.functions[fid]? <;> rfl

@[simp]
theorem addCondId_funcHash2Id (s : CState) (fid cid : Nat) :
    (addCondId s fid cid).funcHash2Id = s.funcHash2Id := by
  unfold addCondId; cases s.functions[fid]? <;> rfl

@[simp]
theorem addCondId_chains (s : CState) (fid cid : Nat) :
    (addCondId s fid cid).chains = s.chains := by
  unfold addCondId; cases s.functions[fid]? <;> rfl

@[simp]
theorem pushReturn_conditions (s : CState) (fid : Nat) (r : ReturnExprMeta) :
    (pushReturn s fid r).conditions = s.conditions := by
  unfold pushReturn; cases s.functions[fid]? <;> rfl

@[simp]
theorem pushReturn_condKey2Id (s : CState) (fid : Nat) (r : ReturnExprMeta) :
    (pushReturn s fid r).condKey2Id = s.condKey2Id := by
  unfold pushReturn; cases s.functions[fid]? <;> rfl

@[simp]
theorem pushReturn_funcHash2Id (s : CState) (fid : Nat) (r : ReturnExprMeta) :
    (pushReturn s fid r).funcHash2Id = s.funcHash2Id := by
  unfold pushReturn; cases s.functions[fid]? <;> rfl

@[simp]
theorem pushReturn_chains (s : CState) (fid : Nat) (r : ReturnExprMeta) :
    (pushReturn s fid r).chains = s.chains := by
  unfold pushReturn; cases s.functions[fid]? <;> rfl

@[simp]
theorem appendChain_conditions (s : CState) (e : ChainMetaEntry) :
    (appendChain s e).conditions = s.conditions := rfl

@[simp]
theorem appendChain_condKey2Id (s : CState) (e : ChainMetaEntry) :
    (appendChain s e).condKey2Id = s.condKey2Id := rfl

@[simp]
theorem appendChain_functions (s : CState) (e : ChainMetaEntry) :
    (appendChain s e).functions = s.functions := rfl

@[simp]
theorem appendChain_funcHash2Id (s : CState) (e : ChainMetaEntry) :
    (appendChain s e).funcHash2Id = s.funcHash2Id := rfl

@[simp]
theorem appendChain_chains (s : CState) (e : ChainMetaEntry) :
    (appendChain s e).chains = s.chains ++ [e] := rfl

@[simp]
theorem mkChainEntry_chainId (i fh : Nat) (mc : List Nat)
    (seq : List (Nat × Bool)) (retHash : Nat) :
    (mkChainEntry i fh mc seq retHash).chainId = pad3 i := rfl

/-- `getOrCreateConditionId` never touches the chains table. -/
@[simp]
theorem getOrCreateConditionId_chains (s : CState) (f : List Nat) (l : Nat)
    (c k : List Nat) :
    (getOrCreateConditionId s f l c k).2.chains = s.chains := by
  unfold getOrCreateConditionId
  split <;> rfl

/-- `getOrCreateConditionId` never touches the functions table. -/
@[simp]
theorem getOrCreateConditionId_functions (s : CState) (f : List Nat) (l : Nat)
    (c k : List Nat) :
    (getOrCreateConditionId s f l c k).2.functions = s.functions := by
  unfold getOrCreateConditionId
  split <;> rfl

/-- `getOrCreateConditionId` never touches the function index. -/
@[simp]
theorem getOrCreateConditionId_funcHash2Id (s : CState) (f : List Nat)
    (l : Nat) (c k : List Nat) :
    (getOrCreateConditionId s f l c k).2.funcHash2Id = s.funcHash2Id := by
  unfold getOrCreateConditionId
  split <;> rfl

/-- `getOrCreateFunctionId` never touches the chains table. -/
@[simp]
theorem getOrCreateFunctionId_chains (s : CState) (h : Nat)
    (sig n f : List Nat) :
    (getOrCreateFunctionId s h sig n f).2.chains = s.chains := by
  unfold getOrCreateFunctionId
  split <;> rfl

/-- `getOrCreateFunctionId` never touches the conditions table. -/
@[simp]
theorem getOrCreateFunctionId_conditions (s : CState) (h : Nat)
    (sig n f : List Nat) :
    (getOrCreateFunctionId s h sig n f).2.conditions = s.conditions := by
  unfold getOrCreateFunctionId
  split <;> rfl

/-- `getOrCreateFunctionId` never touches the condition index. -/
@[simp]
theorem getOrCreateFunctionId_condKey2Id (s : CState) (h : Nat)
    (sig n f : List Nat) :
    (getOrCreateFunctionId s h sig n f).2.condKey2Id = s.condKey2Id := by
  unfold getOrCreateFunctionId
  split <;> rfl

/-- `recSteps` never touches the chains table. -/
theorem recSteps_chains (fid : Nat) :
    ∀ (steps : List CondStepSrc) (fp : List Nat) (s : CState),
      (recSteps fid steps fp s).2.1.chains = s.chains := by
  intro steps
  induction steps with
  | nil => intro fp s; rfl
  | cons st rest ih =>
    intro fp s
    match hc : st.condition with
    | none => simp [recSteps, hc, ih]
    | some c => simp [recSteps, hc, ih]

/-- The indices, within the full input list starting at `i`, of the chains
that are not marked contradictory — the ordinals `recordFunction`'s loop
reaches with its `continue` skipping `IsContra` entries. -/
def survivorIndices : List CondChainInfo → Nat → List Nat
  | [], _ => []
  | ci :: rest, i =>
    if ci.isContra then survivorIndices rest (i + 1)
    else i :: survivorIndices rest (i + 1)

/-- `recChains` appends exactly one chain entry per surviving chain, whose
`chain_id` is `pad3` of the chain's index in the input list. -/
theorem recChains_chainIds (fid fh : Nat) (mc : List Nat)
    (rs : List (List Nat)) :
    ∀ (chains : List CondChainInfo) (i : Nat) (fp : List Nat) (s : CState),
      ((recChains fid fh mc rs chains i fp s).2).chains.map (·.chainId) =
        s.chains.map (·.chainId) ++ (survivorIndices chains i).map pad3 := by
  intro chains
  induction chains with
  | nil => intro i fp s; simp [recChains, survivorIndices]
  | cons ci rest ih =>
    intro i fp s
    by_cases hcontra : ci.isContra
    · simp [recChains, survivorIndices, hcontra, ih]
    · simp only [recChains, survivorIndices, hcontra, if_neg, Bool.false_eq_true,
        ite_false]
      rw [ih]
      have hsteps := recSteps_chains fid ci.chain fp s
      cases hret : rs[i]? with
      | none =>
        simp [hsteps]
      | some r =>
        by_cases hr : r = []
        · simp [hret, hr, hsteps]
        · simp [hret, hr, hsteps]

/-- **C3, amended.** Contradictory chains are dropped before recording,
but the surviving chains' ordinals are NOT re-packed densely: the
`chain_id` recorded for each surviving chain is the 3-digit zero-padded
rendering of its index in the full input list (`oss << setw(3) <<
setfill('0') << I` with `I` the loop index, Meta.cpp:119-120), so the
ordinals skipped by contradictory chains leave gaps. -/
theorem recordFunction_chainIds (fdFile fdName signature : List Nat)
    (condChains : List CondChainInfo) (minCover : List Nat)
    (returnStrs : List (List Nat)) (s : CState) :
    (recordFunction fdFile fdName signature condChains minCover returnStrs
        s).chains.map (·.chainId) =
      s.chains.map (·.chainId) ++
        (survivorIndices condChains 0).map pad3 := by
  unfold recordFunction
  rw [recChains_chainIds]
  rw [getOrCreateFunctionId_chains]

/-- **C3, counterexample.** For the input list
`[contradictory chain, live chain]` the single surviving chain (the 0-th
surviving chain) is recorded with `chain_id = "001"`, not the claimed
dense `"000"`. -/
theorem recordFunction_chainIds_counterexample :
    (recordFunction (bytes "a.cpp") (bytes "f") (bytes "int f(int)")
        [⟨true, []⟩, ⟨false, []⟩] [] [] emptyCState).chains.map (·.chainId) =
      [bytes "001"] ∧
    bytes "001" ≠ pad3 0 := by
  decide

/-! ### Segment and oracle capture (C6) -/

/-- Test-lifecycle operations (`BeginTest` / `EndTest`). -/
def isTestOp : ROp → Bool
  | .beginTest _ _ => true
  | .endTest _ => true
  | _ => false

/-- The number of `AssertionEnd` calls in a call sequence. -/
def countAssertEnds (ops : List ROp) : Nat :=
  (ops.filter fun op => match op with | .assertionEnd => true | _ => false).length

/-- Whether the position after a call sequence lies between an
`AssertionBegin` and its matching `AssertionEnd`, given the flag at the
start of the sequence. -/
def oracleFlag : List ROp → Bool → Bool
  | [], b => b
  | .assertionBegin :: ops, _ => oracleFlag ops true
  | .assertionEnd :: ops, _ => oracleFlag ops false
  | _ :: ops, b => oracleFlag ops b

/-- Running any sequence free of `BeginTest`/`EndTest` from a state with an
active test keeps a test with the same id active, adds one to the segment
counter per `AssertionEnd`, and leaves the assertion flag tracking the last
assertion boundary. -/
theorem run_nonTest_invariant :
    ∀ (p : List ROp) (s : RtState) (t : TestCtx),
      s.test = some t → (∀ op ∈ p, isTestOp op = false) →
      (run p s).1.test.map (·.id) = some t.id ∧
      (run p s).1.segmentId = s.segmentId + countAssertEnds p ∧
      (run p s).1.inAssertion = oracleFlag p s.inAssertion := by
  intro p
  induction p with
  | nil => intro s t ht _; simp [run, ht, countAssertEnds, oracleFlag]
  | cons op ops ih =>
    intro s t ht hops
    have hop := hops op (List.mem_cons_self op ops)
    have hrest : ∀ o ∈ ops, isTestOp o = false :=
      fun o ho => hops o (List.mem_cons_of_mem op ho)
    cases op with
    | beginTest su n => simp [isTestOp] at hop
    | endTest st => simp [isTestOp] at hop
    | assertionBegin =>
      have := ih { s with test := some { t with nextAssertId := t.nextAssertId + 1 },
                          inAssertion := true } { t with nextAssertId := t.nextAssertId + 1 }
        rfl hrest
      simpa [run, step, assertionBeginFn, ht, countAssertEnds, oracleFlag] using this
    | assertionEnd =>
      have := ih { s with inAssertion := false, segmentId := s.segmentId + 1 } t ht hrest
      simp only [run, step, assertionEndFn, ht] at *
      refine ⟨this.1, ?_, ?_⟩
      · rw [this.2.1]
        simp [countAssertEnds, Nat.add_assoc, Nat.add_comm 1]
      · rw [this.2.2]
        simp [oracleFlag]
    | beginInvocation tfh =>
      cases hstk : s.invStack with
      | cons f rest =>
        have := ih { s with invStack := { f with depth := f.depth + 1 } :: rest } t ht hrest
        simpa [run, step, beginInvocationFn, ht, hstk, countAssertEnds, oracleFlag] using this
      | nil =>
        have := ih { s with
            nextInvocationId := s.nextInvocationId + 1,
            test := some { t with nextInvocationIndex := t.nextInvocationIndex + 1 },
            invStack := [{ id := s.nextInvocationId, index := t.nextInvocationIndex,
                           testId := t.id, depth := 1, targetFuncHash := tfh,
                           segmentId := s.segmentId, inOracle := s.inAssertion }] }
          { t with nextInvocationIndex := t.nextInvocationIndex + 1 } rfl hrest
        simpa [run, step, beginInvocationFn, ht, hstk, countAssertEnds, oracleFlag] using this
    | endInvocation st =>
      cases hstk : s.invStack with
      | nil =>
        have := ih s t ht hrest
        simpa [run, step, endInvocationFn, hstk, countAssertEnds, oracleFlag] using this
      | cons f rest =>
        by_cases hd : f.depth > 1
        · have := ih { s with invStack := { f with depth := f.depth - 1 } :: rest } t ht hrest
          simpa [run, step, endInvocationFn, hstk, hd, countAssertEnds, oracleFlag] using this
        · have := ih { s with invStack := rest } t ht hrest
          simpa [run, step, endInvocationFn, hstk, hd, countAssertEnds, oracleFlag] using this
    | logCond fh fl ln v n ch nf ck =>
      have := ih s t ht hrest
      simpa [run, step, logCondFn, countAssertEnds, oracleFlag] using this

/-- Extract `(segment_id, in_oracle)` from an `invocation_start` event. -/
def invStartSegOracle : Ev → Option (Nat × Bool)
  | .invocationStart _ _ _ seg orc => some (seg, orc)
  | _ => none

/-- The S6 call sequence of the claim: BeginTest; BeginInvocation(I1);
EndInvocation; AssertionBegin; BeginInvocation(I2); EndInvocation;
AssertionEnd; BeginInvocation(I3); EndInvocation; EndTest. -/
def oracleScenario : List ROp :=
  [.beginTest (bytes "S") (bytes "T"),
   .beginInvocation 0, .endInvocation (bytes "OK"),
   .assertionBegin,
   .beginInvocation 0, .endInvocation (bytes "OK"),
   .assertionEnd,
   .beginInvocation 0, .endInvocation (bytes "OK"),
   .endTest (bytes "PASSED")]

/-- **C6.** After `BeginTest` followed by any test-op-free call sequence
`p`, the thread's segment counter equals the number of `AssertionEnd`
calls in `p` (it starts at 0 at `BeginTest` and each `AssertionEnd` adds
one) and its assertion flag records whether the position is inside an
open `AssertionBegin`/`AssertionEnd` pair; a `BeginInvocation` on an empty
invocation stack emits an `invocation_start` capturing exactly the current
segment counter and assertion flag.  On the concrete S6 scenario the
captured `(segment_id, in_oracle)` pairs are I1 = (0, 0), I2 = (0, 1),
I3 = (1, 0). -/
theorem invocation_captures_segment_and_oracle
    (p : List ROp) (suite name : List Nat) (tfh : Nat)
    (hp : ∀ op ∈ p, isTestOp op = false) :
    ((run (ROp.beginTest suite name :: p) initRtState).1.segmentId =
        countAssertEnds p ∧
     (run (ROp.beginTest suite name :: p) initRtState).1.inAssertion =
        oracleFlag p false) ∧
    (∀ (s : RtState) (t : TestCtx), s.test = some t → s.invStack = [] →
        (beginInvocationFn tfh s).2 =
          [Ev.invocationStart t.id s.nextInvocationId t.nextInvocationIndex
             s.segmentId s.inAssertion]) ∧
    (run oracleScenario initRtState).2.filterMap invStartSegOracle =
        [(0, false), (0, true), (1, false)] := by
  refine ⟨?_, ?_, by decide⟩
  · have h0 : (step (ROp.beginTest suite name) initRtState).1.test =
        some ⟨1, suite, name, 0, 0⟩ := rfl
    have := run_nonTest_invariant p (step (ROp.beginTest suite name) initRtState).1
      ⟨1, suite, name, 0, 0⟩ h0 hp
    exact ⟨by simpa [run, step, beginTestFn, initRtState] using this.2.1,
           by simpa [run, step, beginTestFn, initRtState] using this.2.2⟩
  · intro s t ht hstk
    simp [beginInvocationFn, ht, hstk]

/-- Witness for `invocation_captures_segment_and_oracle` with
`p = [AssertionBegin, AssertionEnd]`. -/
theorem invocation_captures_segment_and_oracle_witness :
    (run (ROp.beginTest (bytes "S") (bytes "T") ::
        [ROp.assertionBegin, ROp.assertionEnd]) initRtState).1.segmentId =
      countAssertEnds [ROp.assertionBegin, ROp.assertionEnd] ∧
    (run oracleScenario initRtState).2.filterMap invStartSegOracle =
      [(0, false), (0, true), (1, false)] :=
  ⟨(invocation_captures_segment_and_oracle
      [ROp.assertionBegin, ROp.assertionEnd] (bytes "S") (bytes "T") 0
      (by decide)).1.1,
   (invocation_captures_segment_and_oracle
      [ROp.assertionBegin, ROp.assertionEnd] (bytes "S") (bytes "T") 0
      (by decide)).2.2⟩

/-! ### Depth-aware invocations (C5) -/

/-- Invocation operations (`BeginInvocation` / `EndInvocation`). -/
def isInvOp : ROp → Bool
  | .beginInvocation _ => true
  | .endInvocation _ => true
  | _ => false

/-- The nesting level after a call sequence, starting from level `l`
(clipped at zero, as an unmatched `EndInvocation` is a no-op). -/
def lvlAfter : List ROp → Nat → Nat
  | [], l => l
  | .beginInvocation _ :: ops, l => lvlAfter ops (l + 1)
  | .endInvocation _ :: ops, l => lvlAfter ops (l - 1)
  | _ :: ops, l => lvlAfter ops l

/-- The number of outermost `BeginInvocation`s: begins taken at level 0. -/
def risesFrom : List ROp → Nat → Nat
  | [], _ => 0
  | .beginInvocation _ :: ops, l => (if l = 0 then 1 else 0) + risesFrom ops (l + 1)
  | .endInvocation _ :: ops, l => risesFrom ops (l - 1)
  | _ :: ops, l => risesFrom ops l

/-- The number of outermost `EndInvocation`s: ends taken at level 1. -/
def fallsFrom : List ROp → Nat → Nat
  | [], _ => 0
  | .beginInvocation _ :: ops, l => fallsFrom ops (l + 1)
  | .endInvocation _ :: ops, l => (if l = 1 then 1 else 0) + fallsFrom ops (l - 1)
  | _ :: ops, l => fallsFrom ops l

/-- A call sequence is balanced from level `l`: no `EndInvocation` ever
meets level 0 and the final level is 0. -/
def balancedFrom : List ROp → Nat → Bool
  | [], l => l == 0
  | .beginInvocation _ :: ops, l => balancedFrom ops (l + 1)
  | .endInvocation _ :: ops, l => decide (0 < l) && balancedFrom ops (l - 1)
  | _ :: ops, l => balancedFrom ops l

/-- The number of outermost balanced `Begin/End` pairs of a balanced
invocation sequence. -/
def outermostPairs (ops : List ROp) : Nat :=
  risesFrom ops 0

/-- Count of `invocation_start` events. -/
def countStarts (evs : List Ev) : Nat :=
  (evs.filter fun e => match e with | .invocationStart .. => true | _ => false).length

/-- Count of `invocation_end` events. -/
def countEnds (evs : List Ev) : Nat :=
  (evs.filter fun e => match e with | .invocationEnd .. => true | _ => false).length

/-- The invocation stack of a reachable state: at most one frame, of
positive depth; `l` is its depth (0 when empty). -/
def stackShape (stk : List InvocationFrame) (l : Nat) : Prop :=
  match stk with
  | [] => l = 0
  | f :: rest => rest = [] ∧ l = f.depth ∧ 1 ≤ f.depth

/-- Simulation of an invocation-only call sequence against the clipped
depth profile: from an active test and a well-shaped stack at level `l`,
the run emits one `invocation_start` per begin at level 0 and one
`invocation_end` per end at level 1, a test stays active, and the stack
stays well shaped at the profile's final level. -/
theorem run_invOps_sim :
    ∀ (ops : List ROp), (∀ op ∈ ops, isInvOp op = true) →
    ∀ (s : RtState) (t : TestCtx), s.test = some t →
    ∀ l, stackShape s.invStack l →
      countStarts (run ops s).2 = risesFrom ops l ∧
      countEnds (run ops s).2 = fallsFrom ops l ∧
      (∃ t', (run ops s).1.test = some t') ∧
      stackShape (run ops s).1.invStack (lvlAfter ops l) := by
  intro ops
  induction ops with
  | nil =>
    intro _ s t ht l hshape
    exact ⟨rfl, rfl, ⟨t, by simpa [run] using ht⟩, by simpa [run, lvlAfter] using hshape⟩
  | cons op ops ih =>
    intro hops s t ht l hshape
    have hop := hops op (List.mem_cons_self op ops)
    have hrest : ∀ o ∈ ops, isInvOp o = true :=
      fun o ho => hops o (List.mem_cons_of_mem op ho)
    cases op with
    | beginTest su n => simp [isInvOp] at hop
    | endTest st => simp [isInvOp] at hop
    | assertionBegin => simp [isInvOp] at hop
    | assertionEnd => simp [isInvOp] at hop
    | logCond fh fl ln v n ch nf ck => simp [isInvOp] at hop
    | beginInvocation tfh =>
      cases hstk : s.invStack with
      | nil =>
        have hl : l = 0 := by simpa [stackShape, hstk] using hshape
        subst hl
        have key := ih hrest
          { s with nextInvocationId := s.nextInvocationId + 1,
                   test := some { t with nextInvocationIndex := t.nextInvocationIndex + 1 },
                   invStack := [{ id := s.nextInvocationId, index := t.nextInvocationIndex,
                                  testId := t.id, depth := 1, targetFuncHash := tfh,
                                  segmentId := s.segmentId, inOracle := s.inAssertion }] }
          { t with nextInvocationIndex := t.nextInvocationIndex + 1 } rfl 1
          (by simp [stackShape])
        refine ⟨?_, ?_, ?_, ?_⟩
        · have h := key.1
          simp [run, step, beginInvocationFn, ht, hstk, countStarts, risesFrom] at h ⊢
          omega
        · have h := key.2.1
          simp [run, step, beginInvocationFn, ht, hstk, countEnds, fallsFrom] at h ⊢
          exact h
        · have h := key.2.2.1
          simpa [run, step, beginInvocationFn, ht, hstk] using h
        · have h := key.2.2.2
          simpa [run, step, beginInvocationFn, ht, hstk, lvlAfter] using h
      | cons f rest =>
        obtain ⟨hrest0, hl, hd⟩ : rest = [] ∧ l = f.depth ∧ 1 ≤ f.depth := by
          simpa [stackShape, hstk] using hshape
        subst hrest0 hl
        have hne : ¬ f.depth = 0 := by omega
        have key := ih hrest
          { s with invStack := [{ f with depth := f.depth + 1 }] } t ht (f.depth + 1)
          (by simp [stackShape])
        refine ⟨?_, ?_, ?_, ?_⟩
        · have h := key.1
          simp [run, step, beginInvocationFn, ht, hstk, countStarts, risesFrom, hne] at h ⊢
          exact h
        · have h := key.2.1
          simp [run, step, beginInvocationFn, ht, hstk, countEnds, fallsFrom] at h ⊢
          exact h
        · have h := key.2.2.1
          simpa [run, step, beginInvocationFn, ht, hstk] using h
        · have h := key.2.2.2
          simpa [run, step, beginInvocationFn, ht, hstk, lvlAfter] using h
    | endInvocation st =>
      cases hstk : s.invStack with
      | nil =>
        have hl : l = 0 := by simpa [stackShape, hstk] using hshape
        subst hl
        have key := ih hrest s t ht 0 (by simp [stackShape, hstk])
        refine ⟨?_, ?_, ?_, ?_⟩
        · have h := key.1
          simp [run, step, endInvocationFn, hstk, countStarts, risesFrom] at h ⊢
          exact h
        · have h := key.2.1
          simp [run, step, endInvocationFn, hstk, countEnds, fallsFrom] at h ⊢
          exact h
        · have h := key.2.2.1
          simpa [run, step, endInvocationFn, hstk] using h
        · have h := key.2.2.2
          simpa [run, step, endInvocationFn, hstk, lvlAfter] using h
      | cons f rest =>
        obtain ⟨hrest0, hl, hd⟩ : rest = [] ∧ l = f.depth ∧ 1 ≤ f.depth := by
          simpa [stackShape, hstk] using hshape
        subst hrest0 hl
        by_cases hd1 : f.depth > 1
        · have hne1 : ¬ f.depth = 1 := by omega
          have key := ih hrest
            { s with invStack := [{ f with depth := f.depth - 1 }] } t ht (f.depth - 1)
            (by simp [stackShape]; omega)
          refine ⟨?_, ?_, ?_, ?_⟩
          · have h := key.1
            simp [run, step, endInvocationFn, hstk, hd1, countStarts, risesFrom] at h ⊢
            exact h
          · have h := key.2.1
            simp [run, step, endInvocationFn, hstk, hd1, countEnds, fallsFrom, hne1] at h ⊢
            exact h
          · have h := key.2.2.1
            simpa [run, step, endInvocationFn, hstk, hd1] using h
          · have h := key.2.2.2
            simpa [run, step, endInvocationFn, hstk, hd1, lvlAfter] using h
        · have hde : f.depth = 1 := by omega
          have key := ih hrest { s with invStack := [] } t ht 0 (by simp [stackShape])
          refine ⟨?_, ?_, ?_, ?_⟩
          · have h := key.1
            simp [run, step, endInvocationFn, hstk, hd1, countStarts, risesFrom, hde] at h ⊢
            exact h
          · have h := key.2.1
            simp [run, step, endInvocationFn, hstk, hd1, countEnds, fallsFrom, hde] at h ⊢
            omega
          · have h := key.2.2.1
            simpa [run, step, endInvocationFn, hstk, hd1] using h
          · have h := key.2.2.2
            simpa [run, step, endInvocationFn, hstk, hd1, lvlAfter, hde] using h

/-- For a balanced sequence, the ends taken at level 1 are the begins
taken at level 0, plus one for the pending descent when starting above
level 0. -/
theorem fallsFrom_eq_risesFrom :
    ∀ (ops : List ROp) (l : Nat), balancedFrom ops l = true →
      fallsFrom ops l = risesFrom ops l + (if 0 < l then 1 else 0) := by
  intro ops
  induction ops with
  | nil =>
    intro l hb
    have : l = 0 := by simpa [balancedFrom] using hb
    simp [fallsFrom, risesFrom, this]
  | cons op ops ih =>
    intro l hb
    cases op with
    | beginInvocation tfh =>
      have hb' : balancedFrom ops (l + 1) = true := by simpa [balancedFrom] using hb
      have := ih (l + 1) hb'
      rcases Nat.eq_zero_or_pos l with hl | hl
      · subst hl
        simp [fallsFrom, risesFrom, this]
        omega
      · have hne : ¬ l = 0 := by omega
        simp [fallsFrom, risesFrom, this, hne, hl]
    | endInvocation st =>
      have hb0 : 0 < l ∧ balancedFrom ops (l - 1) = true := by
        simpa [balancedFrom] using hb
      have := ih (l - 1) hb0.2
      rcases Nat.lt_or_ge 1 l with hl | hl
      · have h1 : ¬ l = 1 := by omega
        have h2 : 0 < l - 1 := by omega
        simp [fallsFrom, risesFrom, this, h1, h2, hb0.1]
      · have h1 : l = 1 := by omega
        subst h1
        have h0 : fallsFrom ops 0 = risesFrom ops 0 := by simpa using this
        simp [fallsFrom, risesFrom, h0]
        omega
    | beginTest su n =>
      have hb' : balancedFrom ops l = true := by simpa [balancedFrom] using hb
      simp [fallsFrom, risesFrom, ih l hb']
    | endTest st =>
      have hb' : balancedFrom ops l = true := by simpa [balancedFrom] using hb
      simp [fallsFrom, risesFrom, ih l hb']
    | assertionBegin =>
      have hb' : balancedFrom ops l = true := by simpa [balancedFrom] using hb
      simp [fallsFrom, risesFrom, ih l hb']
    | assertionEnd =>
      have hb' : balancedFrom ops l = true := by simpa [balancedFrom] using hb
      simp [fallsFrom, risesFrom, ih l hb']
    | logCond fh fl ln v n ch nf ck =>
      have hb' : balancedFrom ops l = true := by simpa [balancedFrom] using hb
      simp [fallsFrom, risesFrom, ih l hb']

/-- **C5.** For every balanced sequence of `BeginInvocation`/
`EndInvocation` calls on one thread inside an active test (empty stack at
the start), exactly one `invocation_start` and one `invocation_end` event
are emitted per outermost balanced pair; and the four transition clauses:
a `BeginInvocation` while a frame exists only increments the top frame's
depth and emits nothing, an `EndInvocation` at depth above 1 only
decrements it, an `EndInvocation` at depth 1 emits `invocation_end` and
pops the frame, and an `EndInvocation` with an empty stack is a silent
no-op. -/
theorem invocation_depth_one_event_per_outermost_pair
    (ops : List ROp) (s : RtState) (t : TestCtx)
    (hops : ∀ op ∈ ops, isInvOp op = true)
    (htest : s.test = some t) (hstack : s.invStack = [])
    (hbal : balancedFrom ops 0 = true) :
    (countStarts (run ops s).2 = outermostPairs ops ∧
     countEnds (run ops s).2 = outermostPairs ops) ∧
    (∀ (s' : RtState) (t' : TestCtx) (f : InvocationFrame)
        (rest : List InvocationFrame) (tfh : Nat),
        s'.test = some t' → s'.invStack = f :: rest →
        beginInvocationFn tfh s' =
          ({ s' with invStack := { f with depth := f.depth + 1 } :: rest }, [])) ∧
    (∀ (s' : RtState) (f : InvocationFrame) (rest : List InvocationFrame)
        (st : List Nat),
        s'.invStack = f :: rest → f.depth > 1 →
        endInvocationFn st s' =
          ({ s' with invStack := { f with depth := f.depth - 1 } :: rest }, [])) ∧
    (∀ (s' : RtState) (f : InvocationFrame) (rest : List InvocationFrame)
        (st : List Nat),
        s'.invStack = f :: rest → f.depth = 1 →
        endInvocationFn st s' =
          ({ s' with invStack := rest },
           [Ev.invocationEnd f.testId f.id f.segmentId st])) ∧
    (∀ (s' : RtState) (st : List Nat), s'.invStack = [] →
        endInvocationFn st s' = (s', [])) := by
  have hsim := run_invOps_sim ops hops s t htest 0 (by simp [stackShape, hstack])
  refine ⟨⟨hsim.1, ?_⟩, ?_, ?_, ?_, ?_⟩
  · rw [hsim.2.1, fallsFrom_eq_risesFrom ops 0 hbal]
    simp [outermostPairs]
  · intro s' t' f rest tfh ht' hstk'
    simp [beginInvocationFn, ht', hstk']
  · intro s' f rest st hstk' hd
    simp [endInvocationFn, hstk', hd]
  · intro s' f rest st hstk' hd
    simp [endInvocationFn, hstk', hd]
  · intro s' st hstk'
    simp [endInvocationFn, hstk']

/-- Witness for `invocation_depth_one_event_per_outermost_pair` on the
sequence Begin; Begin; End; End; Begin; End (two outermost pairs) after a
`BeginTest`. -/
theorem invocation_depth_one_event_per_outermost_pair_witness :
    countStarts (run [ROp.beginInvocation 0, ROp.beginInvocation 0,
        ROp.endInvocation (bytes "OK"), ROp.endInvocation (bytes "OK"),
        ROp.beginInvocation 0, ROp.endInvocation (bytes "OK")]
      (run [ROp.beginTest (bytes "S") (bytes "T")] initRtState).1).2 =
      outermostPairs [ROp.beginInvocation 0, ROp.beginInvocation 0,
        ROp.endInvocation (bytes "OK"), ROp.endInvocation (bytes "OK"),
        ROp.beginInvocation 0, ROp.endInvocation (bytes "OK")] :=
  (invocation_depth_one_event_per_outermost_pair
    [ROp.beginInvocation 0, ROp.beginInvocation 0,
     ROp.endInvocation (bytes "OK"), ROp.endInvocation (bytes "OK"),
     ROp.beginInvocation 0, ROp.endInvocation (bytes "OK")]
    (run [ROp.beginTest (bytes "S") (bytes "T")] initRtState).1
    ⟨1, bytes "S", bytes "T", 0, 0⟩
    (by decide) (by decide) (by decide) (by decide)).1.1

/-! ### Condition-identity interning (C1) -/

/-- One condition sighting as `getOrCreateConditionId` receives it. -/
structure Sighting where
  file : List Nat
  line : Nat
  condNorm : List Nat
  kind : List Nat
  deriving Repr, DecidableEq

/-- Intern a list of sightings in order. -/
def internAll (s : CState) (gs : List Sighting) : CState :=
  gs.foldl (fun st g => (getOrCreateConditionId st g.file g.line g.condNorm g.kind).2) s

/-- True FNV-1a-64 following the spec's words (§6): offset basis
`0xcbf29ce484222325`, prime `0x100000001b3`, over the bytes.  Stated for
comparison against the code's `fnv1a64`, whose offset constant differs. -/
def specFnv1a64 (data : List Nat) : Nat :=
  data.foldl fnv1aMix specFnvOffset

/-- Every byte `decDigitsAux` emits is an ASCII digit. -/
theorem decDigitsAux_digits :
    ∀ (fuel n d : Nat), d ∈ decDigitsAux fuel n → 48 ≤ d ∧ d ≤ 57 := by
  intro fuel
  induction fuel with
  | zero => intro n d hd; simp [decDigitsAux] at hd
  | succ fuel ih =>
    intro n d hd
    cases n with
    | zero => simp [decDigitsAux] at hd
    | succ m =>
      simp only [decDigitsAux, List.mem_append, List.mem_singleton] at hd
      rcases hd with hd | hd
      · exact ih _ _ hd
      · subst hd
        have : (m + 1) % 10 < 10 := Nat.mod_lt _ (by omega)
        omega

/-- `'#'` (byte 35) never occurs in a decimal rendering. -/
theorem hashByte_not_mem_decDigits (n : Nat) : (35 : Nat) ∉ decDigits n := by
  intro hmem
  unfold decDigits at hmem
  by_cases h0 : n = 0
  · simp [h0] at hmem
  · simp only [h0, if_false] at hmem
    have := decDigitsAux_digits n n 35 hmem
    omega

/-- Splitting at a separator that occurs in neither prefix is unique. -/
theorem sep_append_inj {a : Nat} :
    ∀ (xs₁ : List Nat) (ys₁ : List Nat) (xs₂ : List Nat) (ys₂ : List Nat),
      a ∉ xs₁ → a ∉ xs₂ → xs₁ ++ a :: ys₁ = xs₂ ++ a :: ys₂ →
      xs₁ = xs₂ ∧ ys₁ = ys₂ := by
  intro xs₁
  induction xs₁ with
  | nil =>
    intro ys₁ xs₂ ys₂ _ hx₂ heq
    cases xs₂ with
    | nil => simpa using heq
    | cons b rest =>
      simp only [List.nil_append, List.cons_append, List.cons.injEq] at heq
      exact absurd (heq.1 ▸ List.mem_cons_self b rest) hx₂
  | cons b rest ih =>
    intro ys₁ xs₂ ys₂ hx₁ hx₂ heq
    cases xs₂ with
    | nil =>
      simp only [List.cons_append, List.nil_append, List.cons.injEq] at heq
      exact absurd (heq.1 ▸ List.mem_cons_self b rest) hx₁
    | cons b' rest' =>
      simp only [List.cons_append, List.cons.injEq] at heq
      have hb : b = b' := heq.1
      have h1 : a ∉ rest := fun hm => hx₁ (List.mem_cons_of_mem b hm)
      have h2 : a ∉ rest' := fun hm => hx₂ (List.mem_cons_of_mem b' hm)
      have := ih ys₁ rest' ys₂ h1 h2 heq.2
      exact ⟨by rw [hb, this.1], this.2⟩

/-- The interning key determines its three components once file names are
free of `'#'` (the digits between the separators never contain it). -/
theorem condKey_inj (f₁ f₂ : List Nat) (l₁ l₂ : Nat) (c₁ c₂ : List Nat)
    (hf₁ : (35 : Nat) ∉ f₁) (hf₂ : (35 : Nat) ∉ f₂)
    (heq : condKey f₁ l₁ c₁ = condKey f₂ l₂ c₂) :
    f₁ = f₂ ∧ decDigits l₁ = decDigits l₂ ∧ c₁ = c₂ := by
  have hkey : f₁ ++ 35 :: (decDigits l₁ ++ 35 :: c₁) =
      f₂ ++ 35 :: (decDigits l₂ ++ 35 :: c₂) := by
    simpa [condKey, bytes, List.append_assoc] using heq
  have h1 := sep_append_inj f₁ _ f₂ _ hf₁ hf₂ hkey
  have h2 := sep_append_inj (decDigits l₁) c₁ (decDigits l₂) c₂
    (hashByte_not_mem_decDigits l₁) (hashByte_not_mem_decDigits l₂) h1.2
  exact ⟨h1.1, h2.1, h2.2⟩

/-- `conditionHash` only sees the file bytes, the rendered digits and the
normalized text. -/
theorem conditionHash_congr (f₁ f₂ : List Nat) (l₁ l₂ : Nat) (c₁ c₂ : List Nat)
    (hf : f₁ = f₂) (hl : decDigits l₁ = decDigits l₂) (hc : c₁ = c₂) :
    conditionHash f₁ l₁ c₁ = conditionHash f₂ l₂ c₂ := by
  unfold conditionHash
  rw [hf, hl, hc]

/-- Well-formedness of the condition tables: every interned key maps to a
stored entry that carries a `'#'`-free file, reproduces the key, and whose
hash is `conditionHash` of the entry's own triple. -/
def condTablesWF (s : CState) : Prop :=
  ∀ k i, alookup s.condKey2Id k = some i →
    ∃ e, s.conditions[i]? = some e ∧
      (35 : Nat) ∉ e.file ∧
      k = condKey e.file e.line e.condNorm ∧
      e.hash = conditionHash e.file e.line e.condNorm

/-- The empty collector state is well formed. -/
theorem condTablesWF_empty : condTablesWF emptyCState := by
  intro k i h
  simp [emptyCState, alookup] at h

/-- An intern hit returns the mapped id and leaves the state unchanged. -/
theorem getOrCreateConditionId_hit (s : CState) (f : List Nat) (l : Nat)
    (c k : List Nat) (i : Nat)
    (h : alookup s.condKey2Id (condKey f l c) = some i) :
    getOrCreateConditionId s f l c k = (i, s) := by
  unfold getOrCreateConditionId
  rw [h]

/-- Interning binds the key to the returned id. -/
theorem getOrCreateConditionId_binds (s : CState) (f : List Nat) (l : Nat)
    (c k : List Nat) :
    alookup (getOrCreateConditionId s f l c k).2.condKey2Id (condKey f l c) =
      some (getOrCreateConditionId s f l c k).1 := by
  unfold getOrCreateConditionId
  cases h : alookup s.condKey2Id (condKey f l c) with
  | some i => simpa using h
  | none => simp [alookup]

/-- Interning preserves every existing key binding. -/
theorem getOrCreateConditionId_preserves (s : CState) (f : List Nat) (l : Nat)
    (c k : List Nat) (key : List Nat) (v : Nat)
    (h : alookup s.condKey2Id key = some v) :
    alookup (getOrCreateConditionId s f l c k).2.condKey2Id key = some v := by
  unfold getOrCreateConditionId
  cases hl : alookup s.condKey2Id (condKey f l c) with
  | some i => simpa using h
  | none =>
    simp only [alookup]
    by_cases hk : condKey f l c = key
    · rw [hk] at hl
      rw [hl] at h
      exact absurd h (by simp)
    · simp [hk, h]

/-- `internAll` preserves every existing key binding. -/
theorem internAll_preserves (gs : List Sighting) :
    ∀ (s : CState) (key : List Nat) (v : Nat),
      alookup s.condKey2Id key = some v →
      alookup (internAll s gs).condKey2Id key = some v := by
  induction gs with
  | nil => intro s key v h; simpa [internAll] using h
  | cons g rest ih =>
    intro s key v h
    have h1 := getOrCreateConditionId_preserves s g.file g.line g.condNorm g.kind key v h
    simpa [internAll] using ih _ key v h1

/-- Interning a `'#'`-free sighting preserves well-formedness. -/
theorem condTablesWF_intern (s : CState) (f : List Nat) (l : Nat)
    (c k : List Nat) (hf : (35 : Nat) ∉ f) (hwf : condTablesWF s) :
    condTablesWF (getOrCreateConditionId s f l c k).2 := by
  cases hl : alookup s.condKey2Id (condKey f l c) with
  | some i =>
    rw [getOrCreateConditionId_hit s f l c k i hl]
    exact hwf
  | none =>
    have hrepr : getOrCreateConditionId s f l c k =
        (s.conditions.length,
         { s with
            conditions := s.conditions ++
              [{ id := s.conditions.length, file := f, line := l,
                 condNorm := c, kind := k, hash := conditionHash f l c }],
            condKey2Id :=
              (condKey f l c, s.conditions.length) :: s.condKey2Id }) := by
      unfold getOrCreateConditionId
      rw [hl]
    rw [hrepr]
    intro key i h
    simp only [alookup] at h
    by_cases hk : condKey f l c = key
    · rw [if_pos hk] at h
      have hi : i = s.conditions.length := by
        have := Option.some.inj h
        omega
      subst hi
      refine ⟨{ id := s.conditions.length, file := f, line := l,
                condNorm := c, kind := k, hash := conditionHash f l c },
              ?_, hf, hk.symm, rfl⟩
      rw [List.getElem?_append_right (Nat.le_refl _)]
      simp
    · rw [if_neg hk] at h
      obtain ⟨e, he, hfe, hke, hhe⟩ := hwf key i h
      have hlt : i < s.conditions.length := by
        by_contra hge
        rw [List.getElem?_eq_none (by omega)] at he
        exact absurd he (by simp)
      refine ⟨e, ?_, hfe, hke, hhe⟩
      rw [List.getElem?_append, if_pos hlt]
      exact he

/-- `internAll` over `'#'`-free sightings preserves well-formedness. -/
theorem condTablesWF_internAll (gs : List Sighting) :
    ∀ (s : CState), (∀ g ∈ gs, (35 : Nat) ∉ g.file) → condTablesWF s →
      condTablesWF (internAll s gs) := by
  induction gs with
  | nil => intro s _ hwf; simpa [internAll] using hwf
  | cons g rest ih =>
    intro s hg hwf
    have h1 := condTablesWF_intern s g.file g.line g.condNorm g.kind
      (hg g (List.mem_cons_self g rest)) hwf
    simpa [internAll] using
      ih _ (fun g' hg' => hg g' (List.mem_cons_of_mem g hg')) h1

/-- **C1.** Interning is a pure function of the triple
`(file, line, cond_norm)` — two sightings of an identical triple, whatever
their kind tags and whatever `'#'`-free sightings come before or between
them, receive the same dense id; the stored entry's `cond_hash` is the
code's `hash64` of `file ":" line ":" cond_norm`, and the Instrumenter's
`makeCondNormAndHash` computes the identical formula.  BUT that shared
`hash64` is not FNV-1a-64: at the concrete triple
`("a.cpp", 1, "x > 0")` the stored hash differs from the true FNV-1a-64
(offset basis `0xcbf29ce484222325`) of the same string, because the code's
offset constant drops the final digit of the basis. -/
theorem condition_identity_interning (pre mid : List Sighting) (f : List Nat)
    (l : Nat) (c k1 k2 : List Nat)
    (hf : (35 : Nat) ∉ f)
    (hpre : ∀ g ∈ pre, (35 : Nat) ∉ g.file) :
    (getOrCreateConditionId
        (internAll (getOrCreateConditionId (internAll emptyCState pre) f l c k1).2 mid)
        f l c k2).1 =
      (getOrCreateConditionId (internAll emptyCState pre) f l c k1).1 ∧
    (∃ e, (getOrCreateConditionId (internAll emptyCState pre) f l c k1).2.conditions[(getOrCreateConditionId (internAll emptyCState pre) f l c k1).1]?
        = some e ∧ e.hash = conditionHash f l c) ∧
    (∀ e : CExpr, (makeCondNormAndHash f l e).2 =
        conditionHash f l (condNormFromExpr e)) ∧
    conditionHash (bytes "a.cpp") 1 (bytes "x > 0") ≠
      specFnv1a64 (bytes "a.cpp" ++ bytes ":" ++ decDigits 1 ++ bytes ":" ++
        bytes "x > 0") := by
  have hwf0 : condTablesWF (internAll emptyCState pre) :=
    condTablesWF_internAll pre emptyCState hpre condTablesWF_empty
  refine ⟨?_, ?_, fun e => rfl, by decide⟩
  · have hbind := getOrCreateConditionId_binds (internAll emptyCState pre) f l c k1
    have hkeep := internAll_preserves mid _ _ _ hbind
    have := getOrCreateConditionId_hit _ f l c k2 _ hkeep
    rw [this]
  · cases hl : alookup (internAll emptyCState pre).condKey2Id (condKey f l c) with
    | none =>
      have hrepr : getOrCreateConditionId (internAll emptyCState pre) f l c k1 =
          ((internAll emptyCState pre).conditions.length,
           { internAll emptyCState pre with
              conditions := (internAll emptyCState pre).conditions ++
                [{ id := (internAll emptyCState pre).conditions.length,
                   file := f, line := l, condNorm := c, kind := k1,
                   hash := conditionHash f l c }],
              condKey2Id :=
                (condKey f l c, (internAll emptyCState pre).conditions.length) ::
                  (internAll emptyCState pre).condKey2Id }) := by
        unfold getOrCreateConditionId
        rw [hl]
      rw [hrepr]
      refine ⟨{ id := (internAll emptyCState pre).conditions.length,
                file := f, line := l, condNorm := c, kind := k1,
                hash := conditionHash f l c }, ?_, rfl⟩
      rw [List.getElem?_append_right (Nat.le_refl _)]
      simp
    | some i =>
      rw [getOrCreateConditionId_hit _ f l c k1 i hl]
      obtain ⟨e, he, hfe, hke, hhe⟩ := hwf0 _ _ hl
      have hcomp := condKey_inj e.file f e.line l e.condNorm c hfe hf hke.symm
      refine ⟨e, he, ?_⟩
      rw [hhe]
      exact conditionHash_congr _ _ _ _ _ _ hcomp.1 hcomp.2.1 hcomp.2.2

/-- Witness for `condition_identity_interning`: empty history, one
interleaved sighting of a different condition, kinds `IF` then `LOOP`. -/
theorem condition_identity_interning_witness :
    (getOrCreateConditionId
        (internAll (getOrCreateConditionId (internAll emptyCState []) (bytes "a.cpp") 1
            (bytes "x > 0") (bytes "IF")).2
          [⟨bytes "b.cpp", 2, bytes "y", bytes "IF"⟩])
        (bytes "a.cpp") 1 (bytes "x > 0") (bytes "LOOP")).1 =
      (getOrCreateConditionId (internAll emptyCState []) (bytes "a.cpp") 1
        (bytes "x > 0") (bytes "IF")).1 :=
  (condition_identity_interning [] [⟨bytes "b.cpp", 2, bytes "y", bytes "IF"⟩]
    (bytes "a.cpp") 1 (bytes "x > 0") (bytes "IF") (bytes "LOOP")
    (by decide) (by decide)).1

/-! ### Idempotence of `recordFunction` (C2)

The second of two identical `recordFunction` calls replays every condition
interning as a hit, so the conditions table and both indices do not move;
but each surviving chain is appended to the chains table again, and
non-empty return records are appended to the function again. -/

/-- Setting an index to the element it already holds is a no-op. -/
theorem list_set_self {α : Type} :
    ∀ (l : List α) (i : Nat) (x : α), l[i]? = some x → l.set i x = l := by
  intro l
  induction l with
  | nil => intro i x h; simp at h
  | cons a rest ih =>
    intro i x h
    cases i with
    | zero => simp at h; simp [h]
    | succ j =>
      simp only [List.getElem?_cons_succ] at h
      simp [ih j x h]

/-- The function's set already contains `cid`: then `addCondId` is a
no-op. -/
def hasCid (s : CState) (fid cid : Nat) : Prop :=
  ∀ fentry, s.functions[fid]? = some fentry → cid ∈ fentry.conditionIds

/-- Membership survives `insertCid`. -/
theorem mem_insertCid (l : List Nat) (a c : Nat) (h : a ∈ l) :
    a ∈ insertCid l c := by
  unfold insertCid
  by_cases hc : c ∈ l <;> simp [hc, h]

/-- `insertCid` inserts. -/
theorem self_mem_insertCid (l : List Nat) (c : Nat) : c ∈ insertCid l c := by
  unfold insertCid
  by_cases hc : c ∈ l <;> simp [hc]

/-- `addCondId` on an already-present condition id changes nothing. -/
theorem addCondId_noop (s : CState) (fid cid : Nat) (h : hasCid s fid cid) :
    addCondId s fid cid = s := by
  unfold addCondId
  cases hf : s.functions[fid]? with
  | none => rfl
  | some f =>
    have hmem := h f hf
    have h1 : insertCid f.conditionIds cid = f.conditionIds := by
      unfold insertCid
      rw [if_pos hmem]
    dsimp only
    rw [h1]
    have h2 : s.functions.set fid f = s.functions := list_set_self _ _ _ hf
    show ({ s with functions := s.functions.set fid f } : CState) = s
    rw [h2]

/-- `addCondId` establishes its own condition id. -/
theorem hasCid_addCondId_self (s : CState) (fid cid : Nat) :
    hasCid (addCondId s fid cid) fid cid := by
  unfold addCondId
  cases hf : s.functions[fid]? with
  | none => intro fentry hh; rw [hf] at hh; cases hh
  | some f =>
    intro fentry hh
    have hlt : fid < s.functions.length := by
      by_contra hge
      rw [List.getElem?_eq_none (by omega)] at hf
      cases hf
    simp only [List.getElem?_set, if_pos rfl, hlt, if_pos] at hh
    cases hh
    exact self_mem_insertCid _ _

/-- `addCondId` preserves every established condition id. -/
theorem hasCid_addCondId (s : CState) (fid cid fid' cid' : Nat)
    (h : hasCid s fid cid) : hasCid (addCondId s fid' cid') fid cid := by
  unfold addCondId
  cases hf : s.functions[fid']? with
  | none => exact h
  | some f =>
    intro fentry hh
    by_cases hfe : fid' = fid
    · subst hfe
      have hlt : fid' < s.functions.length := by
        by_contra hge
        rw [List.getElem?_eq_none (by omega)] at hf
        cases hf
      simp only [List.getElem?_set, if_pos rfl, hlt, if_pos] at hh
      cases hh
      exact mem_insertCid _ _ _ (h f hf)
    · simp only [List.getElem?_set, if_neg hfe] at hh
      exact h fentry hh

/-- `pushReturn` preserves every established condition id. -/
theorem hasCid_pushReturn (s : CState) (fid cid fid' : Nat)
    (r : ReturnExprMeta) (h : hasCid s fid cid) :
    hasCid (pushReturn s fid' r) fid cid := by
  unfold pushReturn
  cases hf : s.functions[fid']? with
  | none => exact h
  | some f =>
    intro fentry hh
    by_cases hfe : fid' = fid
    · subst hfe
      have hlt : fid' < s.functions.length := by
        by_contra hge
        rw [List.getElem?_eq_none (by omega)] at hf
        cases hf
      simp only [List.getElem?_set, if_pos rfl, hlt, if_pos] at hh
      cases hh
      exact h f hf
    · simp only [List.getElem?_set, if_neg hfe] at hh
      exact h fentry hh

/-- Interning a condition preserves every established condition id. -/
theorem hasCid_intern (s : CState) (fid cid : Nat) (f : List Nat) (l : Nat)
    (c k : List Nat) (h : hasCid s fid cid) :
    hasCid (getOrCreateConditionId s f l c k).2 fid cid := by
  intro fentry hh
  rw [getOrCreateConditionId_functions] at hh
  exact h fentry hh

/-- Appending to the chains table preserves every established condition
id. -/
theorem hasCid_chainsApp (s : CState) (fid cid : Nat)
    (cs : List ChainMetaEntry) (h : hasCid s fid cid) :
    hasCid { s with chains := cs } fid cid := by
  intro fentry hh
  exact h fentry hh

/-- `recSteps` preserves every established condition id. -/
theorem hasCid_recSteps (fid' : Nat) :
    ∀ (steps : List CondStepSrc) (fp : List Nat) (s : CState) (fid cid : Nat),
      hasCid s fid cid → hasCid (recSteps fid' steps fp s).2.1 fid cid := by
  intro steps
  induction steps with
  | nil => intro fp s fid cid h; exact h
  | cons st rest ih =>
    intro fp s fid cid h
    cases hc : st.condition with
    | none => simpa [recSteps, hc] using ih fp s fid cid h
    | some c =>
      simp only [recSteps, hc]
      exact ih _ _ fid cid (hasCid_addCondId _ _ _ _ _ (hasCid_intern _ _ _ _ _ _ _ h))

/-- `recChains` preserves every established condition id. -/
theorem hasCid_recChains (fid' fh : Nat) (mc : List Nat) (rs : List (List Nat)) :
    ∀ (chains : List CondChainInfo) (i : Nat) (fp : List Nat) (s : CState)
      (fid cid : Nat),
      hasCid s fid cid →
      hasCid (recChains fid' fh mc rs chains i fp s).2 fid cid := by
  intro chains
  induction chains with
  | nil => intro i fp s fid cid h; exact h
  | cons ci rest ih =>
    intro i fp s fid cid h
    by_cases hcontra : ci.isContra
    · simpa [recChains, hcontra] using ih (i + 1) fp s fid cid h
    · simp only [recChains, hcontra, Bool.false_eq_true, if_false, if_neg]
      apply ih
      have h1 := hasCid_recSteps fid' ci.chain fp s fid cid h
      cases hret : rs[i]? with
      | none => exact hasCid_chainsApp _ _ _ _ h1
      | some rstr =>
        by_cases hr : rstr = []
        · simp only [hret, hr, if_pos rfl]
          exact hasCid_chainsApp _ _ _ _ h1
        · simp only [hret, if_neg hr]
          exact hasCid_chainsApp _ _ _ _ (hasCid_pushReturn _ _ _ _ _ h1)

/-- `recSteps` preserves every existing key binding. -/
theorem recSteps_preserves_bindings (fid : Nat) :
    ∀ (steps : List CondStepSrc) (fp : List Nat) (s : CState)
      (key : List Nat) (v : Nat),
      alookup s.condKey2Id key = some v →
      alookup (recSteps fid steps fp s).2.1.condKey2Id key = some v := by
  intro steps
  induction steps with
  | nil => intro fp s key v h; exact h
  | cons st rest ih =>
    intro fp s key v h
    cases hc : st.condition with
    | none => simpa [recSteps, hc] using ih fp s key v h
    | some c =>
      simp only [recSteps, hc]
      apply ih
      rw [addCondId_condKey2Id]
      exact getOrCreateConditionId_preserves _ _ _ _ _ _ _ h

/-- `recChains` preserves every existing key binding. -/
theorem recChains_preserves_bindings (fid fh : Nat) (mc : List Nat)
    (rs : List (List Nat)) :
    ∀ (chains : List CondChainInfo) (i : Nat) (fp : List Nat) (s : CState)
      (key : List Nat) (v : Nat),
      alookup s.condKey2Id key = some v →
      alookup (recChains fid fh mc rs chains i fp s).2.condKey2Id key = some v := by
  intro chains
  induction chains with
  | nil => intro i fp s key v h; exact h
  | cons ci rest ih =>
    intro i fp s key v h
    by_cases hcontra : ci.isContra
    · simpa [recChains, hcontra] using ih (i + 1) fp s key v h
    · simp only [recChains, hcontra, Bool.false_eq_true, if_false, if_neg]
      apply ih
      have h1 := recSteps_preserves_bindings fid ci.chain fp s key v h
      cases hret : rs[i]? with
      | none => simpa using h1
      | some rstr =>
        by_cases hr : rstr = []
        · simp only [hret, hr, if_pos rfl]
          simpa using h1
        · simp only [hret, if_neg hr]
          simpa using h1

/-- `recSteps` records every produced condition id in the function's
set. -/
theorem recSteps_grows (fid : Nat) :
    ∀ (steps : List CondStepSrc) (fp : List Nat) (s : CState),
      ∀ p ∈ (recSteps fid steps fp s).2.2,
        hasCid (recSteps fid steps fp s).2.1 fid p.1 := by
  intro steps
  induction steps with
  | nil => intro fp s p hp; simp [recSteps] at hp
  | cons st rest ih =>
    intro fp s p hp
    cases hc : st.condition with
    | none =>
      simp only [recSteps, hc] at hp ⊢
      exact ih fp s p hp
    | some c =>
      simp only [recSteps, hc, List.mem_cons] at hp ⊢
      rcases hp with hp | hp
      · subst hp
        exact hasCid_recSteps fid rest _ _ fid _ (hasCid_addCondId_self _ _ _)
      · exact ih _ _ p hp

/-- The identity fields of a function entry (everything but the return
records). -/
def stripReturns (f : FunctionMetaEntry) :
    Nat × List Nat × List Nat × List Nat × Nat × List Nat :=
  (f.funcId, f.signature, f.name, f.file, f.funcHash, f.conditionIds)

/-- `pushReturn` does not move any function's identity fields. -/
theorem pushReturn_stripMap (s : CState) (fid : Nat) (r : ReturnExprMeta) :
    (pushReturn s fid r).functions.map stripReturns =
      s.functions.map stripReturns := by
  unfold pushReturn
  cases hf : s.functions[fid]? with
  | none => rfl
  | some f =>
    dsimp only
    rw [List.map_set]
    apply list_set_self
    rw [List.getElem?_map, hf]
    rfl

/-- Transitivity of the being-a-prefix-by-append relation. -/
theorem chains_prefix_trans {c0 c1 c2 : List ChainMetaEntry}
    (h2 : ∃ t, c2 = c1 ++ t) (h1 : ∃ t, c1 = c0 ++ t) :
    ∃ t, c2 = c0 ++ t := by
  obtain ⟨t2, h2⟩ := h2
  obtain ⟨t1, h1⟩ := h1
  exact ⟨t1 ++ t2, by rw [h2, h1, List.append_assoc]⟩

/-- `recChains` only appends to the chains table. -/
theorem recChains_chains_grow (fid fh : Nat) (mc : List Nat)
    (rs : List (List Nat)) :
    ∀ (chains : List CondChainInfo) (i : Nat) (fp : List Nat) (s : CState),
      ∃ tail, (recChains fid fh mc rs chains i fp s).2.chains =
        s.chains ++ tail := by
  intro chains
  induction chains with
  | nil => intro i fp s; exact ⟨[], by simp [recChains]⟩
  | cons ci rest ih =>
    intro i fp s
    by_cases hcontra : ci.isContra
    · simpa [recChains, hcontra] using ih (i + 1) fp s
    · simp only [recChains, hcontra, Bool.false_eq_true, if_false, if_neg]
      cases hret : rs[i]? with
      | none =>
        refine chains_prefix_trans (ih (i + 1) _ _) ?_
        simp [recSteps_chains]
      | some rstr =>
        by_cases hr : rstr = []
        · simp only [hret, hr, if_pos rfl]
          refine chains_prefix_trans (ih (i + 1) _ _) ?_
          simp [recSteps_chains]
        · simp only [hret, if_neg hr]
          refine chains_prefix_trans (ih (i + 1) _ _) ?_
          simp [recSteps_chains]

/-- Replaying `recSteps` against a state that already holds every binding
and condition id of the first run changes nothing: the same file-path
thread and the same sequence come out, and the state is untouched. -/
theorem recSteps_replay (fid : Nat) :
    ∀ (steps : List CondStepSrc) (fp : List Nat) (sA sB : CState),
      (∀ k v, alookup (recSteps fid steps fp sA).2.1.condKey2Id k = some v →
              alookup sB.condKey2Id k = some v) →
      (∀ p ∈ (recSteps fid steps fp sA).2.2, hasCid sB fid p.1) →
      recSteps fid steps fp sB =
        ((recSteps fid steps fp sA).1, sB, (recSteps fid steps fp sA).2.2) := by
  intro steps
  induction steps with
  | nil => intro fp sA sB _ _; rfl
  | cons st rest ih =>
    intro fp sA sB hmap hcid
    cases hc : st.condition with
    | none =>
      simp only [recSteps, hc] at hmap hcid ⊢
      exact ih fp sA sB hmap hcid
    | some c =>
      simp only [recSteps, hc, List.mem_cons] at hmap hcid ⊢
      have hbindA :=
        getOrCreateConditionId_binds sA
          (match c.cond with | some fl => fl.1 | none => fp)
          (match c.cond with | some fl => fl.2 | none => 0)
          c.condStr (kindString c.kind)
      have hbindFinal :
          alookup (recSteps fid rest
              (match c.cond with | some fl => fl.1 | none => fp)
              (addCondId
                (getOrCreateConditionId sA
                  (match c.cond with | some fl => fl.1 | none => fp)
                  (match c.cond with | some fl => fl.2 | none => 0)
                  c.condStr (kindString c.kind)).2 fid
                (getOrCreateConditionId sA
                  (match c.cond with | some fl => fl.1 | none => fp)
                  (match c.cond with | some fl => fl.2 | none => 0)
                  c.condStr (kindString c.kind)).1)).2.1.condKey2Id
            (condKey (match c.cond with | some fl => fl.1 | none => fp)
              (match c.cond with | some fl => fl.2 | none => 0) c.condStr) =
            some (getOrCreateConditionId sA
              (match c.cond with | some fl => fl.1 | none => fp)
              (match c.cond with | some fl => fl.2 | none => 0)
              c.condStr (kindString c.kind)).1 := by
        apply recSteps_preserves_bindings
        rw [addCondId_condKey2Id]
        exact hbindA
      have hinB := hmap _ _ hbindFinal
      have hhit := getOrCreateConditionId_hit sB
        (match c.cond with | some fl => fl.1 | none => fp)
        (match c.cond with | some fl => fl.2 | none => 0)
        c.condStr (kindString c.kind) _ hinB
      rw [hhit]
      have hnoop : addCondId sB fid
          (getOrCreateConditionId sA
            (match c.cond with | some fl => fl.1 | none => fp)
            (match c.cond with | some fl => fl.2 | none => 0)
            c.condStr (kindString c.kind)).1 = sB :=
        addCondId_noop _ _ _ (hcid _ (Or.inl rfl))
      dsimp only
      rw [hnoop]
      have := ih (match c.cond with | some fl => fl.1 | none => fp)
        (addCondId
          (getOrCreateConditionId sA
            (match c.cond with | some fl => fl.1 | none => fp)
            (match c.cond with | some fl => fl.2 | none => 0)
            c.condStr (kindString c.kind)).2 fid
          (getOrCreateConditionId sA
            (match c.cond with | some fl => fl.1 | none => fp)
            (match c.cond with | some fl => fl.2 | none => 0)
            c.condStr (kindString c.kind)).1)
        sB hmap (fun p hp => hcid p (Or.inr hp))
      rw [this]

/-- Replaying `recChains` against a state that already holds every binding
and condition id of the first run: the file-path thread agrees, the
conditions table and both indices do not move, function identities (all
fields except the return records) do not move, and both runs append the
same list of chain entries to their respective chains tables. -/
theorem recChains_replay (fid fh : Nat) (mc : List Nat) (rs : List (List Nat)) :
    ∀ (chains : List CondChainInfo) (i : Nat) (fp : List Nat) (sA sB : CState),
      (∀ k v, alookup (recChains fid fh mc rs chains i fp sA).2.condKey2Id k = some v →
              alookup sB.condKey2Id k = some v) →
      (∀ cid, hasCid (recChains fid fh mc rs chains i fp sA).2 fid cid →
              hasCid sB fid cid) →
      (recChains fid fh mc rs chains i fp sB).1 =
        (recChains fid fh mc rs chains i fp sA).1 ∧
      (recChains fid fh mc rs chains i fp sB).2.conditions = sB.conditions ∧
      (recChains fid fh mc rs chains i fp sB).2.condKey2Id = sB.condKey2Id ∧
      (recChains fid fh mc rs chains i fp sB).2.funcHash2Id = sB.funcHash2Id ∧
      (recChains fid fh mc rs chains i fp sB).2.functions.map stripReturns =
        sB.functions.map stripReturns ∧
      (∃ delta,
        (recChains fid fh mc rs chains i fp sA).2.chains = sA.chains ++ delta ∧
        (recChains fid fh mc rs chains i fp sB).2.chains = sB.chains ++ delta) := by
  intro chains
  induction chains with
  | nil =>
    intro i fp sA sB _ _
    exact ⟨rfl, rfl, rfl, rfl, rfl, [], by simp [recChains], by simp [recChains]⟩
  | cons ci rest ih =>
    intro i fp sA sB hmap hcid
    by_cases hcontra : ci.isContra
    · simp only [recChains, hcontra, if_pos] at hmap hcid ⊢
      exact ih (i + 1) fp sA sB hmap hcid
    · simp only [recChains, hcontra, Bool.false_eq_true, if_false, if_neg]
        at hmap hcid ⊢
      have hmapLocal : ∀ k v,
          alookup (recSteps fid ci.chain fp sA).2.1.condKey2Id k = some v →
          alookup sB.condKey2Id k = some v := by
        intro k v hv
        apply hmap
        apply recChains_preserves_bindings
        cases hret : rs[i]? with
        | none => simpa using hv
        | some rstr =>
          by_cases hr : rstr = []
          · simp only [hret, hr, if_pos rfl]
            simpa using hv
          · simp only [hret, if_neg hr]
            simpa using hv
      have hcidLocal : ∀ p ∈ (recSteps fid ci.chain fp sA).2.2,
          hasCid sB fid p.1 := by
        intro p hp
        apply hcid
        apply hasCid_recChains
        have h1 := recSteps_grows fid ci.chain fp sA p hp
        cases hret : rs[i]? with
        | none => exact hasCid_chainsApp _ _ _ _ h1
        | some rstr =>
          by_cases hr : rstr = []
          · simp only [hret, hr, if_pos rfl]
            exact hasCid_chainsApp _ _ _ _ h1
          · simp only [hret, if_neg hr]
            exact hasCid_chainsApp _ _ _ _ (hasCid_pushReturn _ _ _ _ _ h1)
      have hreplay := recSteps_replay fid ci.chain fp sA sB hmapLocal hcidLocal
      rw [hreplay]
      dsimp only
      cases hret : rs[i]? with
      | none =>
        simp only [hret] at hmap hcid ⊢
        obtain ⟨h1, h2, h3, h4, h5, delta, hdA, hdB⟩ :=
          ih (i + 1) (recSteps fid ci.chain fp sA).1
            (appendChain (recSteps fid ci.chain fp sA).2.1
              (mkChainEntry i fh mc (recSteps fid ci.chain fp sA).2.2 0))
            (appendChain sB
              (mkChainEntry i fh mc (recSteps fid ci.chain fp sA).2.2 0))
            (fun k v hv => hmap k v hv)
            (fun cid hc => fun fentry hf => hcid cid hc fentry hf)
        refine ⟨h1, by simpa using h2, by simpa using h3, by simpa using h4,
                by simpa using h5, ?_⟩
        refine ⟨mkChainEntry i fh mc (recSteps fid ci.chain fp sA).2.2 0 :: delta,
                ?_, ?_⟩
        · rw [hdA]
          simp [recSteps_chains]
        · rw [hdB]
          simp
      | some rstr =>
        by_cases hr : rstr = []
        · subst hr
          simp only [hret, eq_self_iff_true, if_true] at hmap hcid ⊢
          obtain ⟨h1, h2, h3, h4, h5, delta, hdA, hdB⟩ :=
            ih (i + 1) (recSteps fid ci.chain fp sA).1
              (appendChain (recSteps fid ci.chain fp sA).2.1
                (mkChainEntry i fh mc (recSteps fid ci.chain fp sA).2.2
                  (returnHash [])))
              (appendChain sB
                (mkChainEntry i fh mc (recSteps fid ci.chain fp sA).2.2
                  (returnHash [])))
              (fun k v hv => hmap k v hv)
              (fun cid hc => fun fentry hf => hcid cid hc fentry hf)
          refine ⟨h1, by simpa using h2, by simpa using h3, by simpa using h4,
                  by simpa using h5, ?_⟩
          refine ⟨mkChainEntry i fh mc (recSteps fid ci.chain fp sA).2.2
                    (returnHash []) :: delta, ?_, ?_⟩
          · rw [hdA]
            simp [recSteps_chains]
          · rw [hdB]
            simp
        · simp only [hret, if_neg hr] at hmap hcid ⊢
          obtain ⟨h1, h2, h3, h4, h5, delta, hdA, hdB⟩ :=
            ih (i + 1) (recSteps fid ci.chain fp sA).1
              (appendChain
                (pushReturn (recSteps fid ci.chain fp sA).2.1 fid
                  ⟨pad3 i, returnHash rstr, rstr⟩)
                (mkChainEntry i fh mc (recSteps fid ci.chain fp sA).2.2
                  (returnHash rstr)))
              (appendChain (pushReturn sB fid ⟨pad3 i, returnHash rstr, rstr⟩)
                (mkChainEntry i fh mc (recSteps fid ci.chain fp sA).2.2
                  (returnHash rstr)))
              (fun k v hv => by
                have := hmap k v hv
                simpa using this)
              (fun cid hc => fun fentry hf =>
                hasCid_pushReturn sB fid cid fid
                  ⟨pad3 i, returnHash rstr, rstr⟩ (hcid cid hc) fentry hf)
          refine ⟨h1, by simpa using h2, by simpa using h3, by simpa using h4,
                  by simpa [pushReturn_stripMap] using h5, ?_⟩
          refine ⟨mkChainEntry i fh mc (recSteps fid ci.chain fp sA).2.2
                    (returnHash rstr) :: delta, ?_, ?_⟩
          · rw [hdA]
            simp [recSteps_chains]
          · rw [hdB]
            simp

/-- `recSteps` never touches the function index. -/
theorem recSteps_funcHash2Id (fid : Nat) :
    ∀ (steps : List CondStepSrc) (fp : List Nat) (s : CState),
      (recSteps fid steps fp s).2.1.funcHash2Id = s.funcHash2Id := by
  intro steps
  induction steps with
  | nil => intro fp s; rfl
  | cons st rest ih =>
    intro fp s
    cases hc : st.condition with
    | none => simp [recSteps, hc, ih]
    | some c => simp [recSteps, hc, ih]

/-- `recChains` never touches the function index. -/
theorem recChains_funcHash2Id (fid fh : Nat) (mc : List Nat)
    (rs : List (List Nat)) :
    ∀ (chains : List CondChainInfo) (i : Nat) (fp : List Nat) (s : CState),
      (recChains fid fh mc rs chains i fp s).2.funcHash2Id = s.funcHash2Id := by
  intro chains
  induction chains with
  | nil => intro i fp s; rfl
  | cons ci rest ih =>
    intro i fp s
    by_cases hcontra : ci.isContra
    · simp [recChains, hcontra, ih]
    · simp only [recChains, hcontra, Bool.false_eq_true, if_false, if_neg]
      rw [ih]
      cases hret : rs[i]? with
      | none => simp [recSteps_funcHash2Id]
      | some rstr =>
        by_cases hr : rstr = []
        · simp [hret, hr, recSteps_funcHash2Id]
        · simp [hret, hr, recSteps_funcHash2Id]

/-- A function-intern hit returns the mapped id and leaves the state
unchanged. -/
theorem getOrCreateFunctionId_hit (s : CState) (fh : Nat)
    (sig n f : List Nat) (i : Nat)
    (h : alookup s.funcHash2Id fh = some i) :
    getOrCreateFunctionId s fh sig n f = (i, s) := by
  unfold getOrCreateFunctionId
  rw [h]

/-- Interning a function binds its hash to the returned id. -/
theorem getOrCreateFunctionId_binds (s : CState) (fh : Nat)
    (sig n f : List Nat) :
    alookup (getOrCreateFunctionId s fh sig n f).2.funcHash2Id fh =
      some (getOrCreateFunctionId s fh sig n f).1 := by
  unfold getOrCreateFunctionId
  cases h : alookup s.funcHash2Id fh with
  | some i => simpa using h
  | none => simp [alookup]

/-- **C2, amended.** `record_function` is idempotent on the conditions
table, on both interning indices, and on every function's identity fields
and condition-id set — a second call with identical inputs replays every
interning as a hit and leaves them unchanged — but NOT on the chains
table or the return records: both calls append the same list of chain
entries (one per surviving chain), so the second identical call duplicates
them (and re-appends the function's non-empty return records), and the
dumped JSON differs. -/
theorem recordFunction_second_call (fdFile fdName signature : List Nat)
    (condChains : List CondChainInfo) (minCover : List Nat)
    (returnStrs : List (List Nat)) (s0 : CState) :
    (recordFunction fdFile fdName signature condChains minCover returnStrs
        (recordFunction fdFile fdName signature condChains minCover returnStrs
          s0)).conditions =
      (recordFunction fdFile fdName signature condChains minCover returnStrs
        s0).conditions ∧
    (recordFunction fdFile fdName signature condChains minCover returnStrs
        (recordFunction fdFile fdName signature condChains minCover returnStrs
          s0)).condKey2Id =
      (recordFunction fdFile fdName signature condChains minCover returnStrs
        s0).condKey2Id ∧
    (recordFunction fdFile fdName signature condChains minCover returnStrs
        (recordFunction fdFile fdName signature condChains minCover returnStrs
          s0)).funcHash2Id =
      (recordFunction fdFile fdName signature condChains minCover returnStrs
        s0).funcHash2Id ∧
    (recordFunction fdFile fdName signature condChains minCover returnStrs
        (recordFunction fdFile fdName signature condChains minCover returnStrs
          s0)).functions.map stripReturns =
      (recordFunction fdFile fdName signature condChains minCover returnStrs
        s0).functions.map stripReturns ∧
    (∃ delta,
      (recordFunction fdFile fdName signature condChains minCover returnStrs
          s0).chains = s0.chains ++ delta ∧
      (recordFunction fdFile fdName signature condChains minCover returnStrs
          (recordFunction fdFile fdName signature condChains minCover
            returnStrs s0)).chains =
        (recordFunction fdFile fdName signature condChains minCover returnStrs
          s0).chains ++ delta) := by
  unfold recordFunction
  dsimp only
  have hbindF := getOrCreateFunctionId_binds s0 (hash64 signature) signature
    fdName fdFile
  have hbindF1 : alookup
      (recChains (getOrCreateFunctionId s0 (hash64 signature) signature fdName fdFile).1
        (hash64 signature) minCover returnStrs condChains 0 fdFile
        (getOrCreateFunctionId s0 (hash64 signature) signature fdName fdFile).2).2.funcHash2Id
      (hash64 signature) =
      some (getOrCreateFunctionId s0 (hash64 signature) signature fdName fdFile).1 := by
    rw [recChains_funcHash2Id]
    exact hbindF
  rw [getOrCreateFunctionId_hit _ _ _ _ _ _ hbindF1]
  dsimp only
  have hrep := recChains_replay
    (getOrCreateFunctionId s0 (hash64 signature) signature fdName fdFile).1
    (hash64 signature) minCover returnStrs condChains 0 fdFile
    (getOrCreateFunctionId s0 (hash64 signature) signature fdName fdFile).2
    (recChains (getOrCreateFunctionId s0 (hash64 signature) signature fdName fdFile).1
      (hash64 signature) minCover returnStrs condChains 0 fdFile
      (getOrCreateFunctionId s0 (hash64 signature) signature fdName fdFile).2).2
    (fun k v hv => hv) (fun cid hc => hc)
  obtain ⟨delta, hdA, hdB⟩ := hrep.2.2.2.2.2
  refine ⟨hrep.2.1, hrep.2.2.1, hrep.2.2.2.1, hrep.2.2.2.2.1, delta, ?_, hdB⟩
  rw [hdA, getOrCreateFunctionId_chains]

/-- **C2, counterexample.** Recording the same one-chain function twice
doubles the chains table (1 entry, then 2) and duplicates the function's
return record (1, then 2), while the conditions table stays the same —
refuting "a second call with identical inputs leaves the collector's
conditions, functions and chains tables in the same state". -/
theorem recordFunction_not_idempotent_counterexample :
    (recordFunction (bytes "a.cpp") (bytes "f") (bytes "int f(int)")
        [⟨false, [⟨some ⟨some (bytes "a.cpp", 1), bytes "x > 0", false, .IF⟩, true⟩]⟩]
        [] [bytes "x"] emptyCState).chains.length = 1 ∧
    (recordFunction (bytes "a.cpp") (bytes "f") (bytes "int f(int)")
        [⟨false, [⟨some ⟨some (bytes "a.cpp", 1), bytes "x > 0", false, .IF⟩, true⟩]⟩]
        [] [bytes "x"]
        (recordFunction (bytes "a.cpp") (bytes "f") (bytes "int f(int)")
          [⟨false, [⟨some ⟨some (bytes "a.cpp", 1), bytes "x > 0", false, .IF⟩, true⟩]⟩]
          [] [bytes "x"] emptyCState)).chains.length = 2 ∧
    (recordFunction (bytes "a.cpp") (bytes "f") (bytes "int f(int)")
        [⟨false, [⟨some ⟨some (bytes "a.cpp", 1), bytes "x > 0", false, .IF⟩, true⟩]⟩]
        [] [bytes "x"] emptyCState).functions.map (fun f => f.returns.length) =
      [1] ∧
    (recordFunction (bytes "a.cpp") (bytes "f") (bytes "int f(int)")
        [⟨false, [⟨some ⟨some (bytes "a.cpp", 1), bytes "x > 0", false, .IF⟩, true⟩]⟩]
        [] [bytes "x"]
        (recordFunction (bytes "a.cpp") (bytes "f") (bytes "int f(int)")
          [⟨false, [⟨some ⟨some (bytes "a.cpp", 1), bytes "x > 0", false, .IF⟩, true⟩]⟩]
          [] [bytes "x"] emptyCState)).functions.map (fun f => f.returns.length) =
      [2] ∧
    (recordFunction (bytes "a.cpp") (bytes "f") (bytes "int f(int)")
        [⟨false, [⟨some ⟨some (bytes "a.cpp", 1), bytes "x > 0", false, .IF⟩, true⟩]⟩]
        [] [bytes "x"]
        (recordFunction (bytes "a.cpp") (bytes "f") (bytes "int f(int)")
          [⟨false, [⟨some ⟨some (bytes "a.cpp", 1), bytes "x > 0", false, .IF⟩, true⟩]⟩]
          [] [bytes "x"] emptyCState)).conditions =
      (recordFunction (bytes "a.cpp") (bytes "f") (bytes "int f(int)")
        [⟨false, [⟨some ⟨some (bytes "a.cpp", 1), bytes "x > 0", false, .IF⟩, true⟩]⟩]
        [] [bytes "x"] emptyCState).conditions := by
  decide

end BrInfo
